import Mathlib

/-!
Verification development for the core of the xv6 RPi2 port
(virtual memory, processes/scheduling, traps, interrupt-masking
spinlocks).  The C sources are embedded shallowly: pure computations
become Lean functions over `Nat` (machine integers are 32-bit; every
place where C's `u_int32` wrap-around matters is modelled with an
explicit mask or noted next to the definition), stateful code becomes
explicit state passing, C loops become fuel-indexed structural
recursion (the fuel passed by each wrapper is a bound on the number of
loop iterations computed from the loop's own progress; `Res.nofuel`
marks the impossible exhaustion case), and fatal `panic` calls become
the `Res.panicked` outcome carrying the diagnostic string.
-/

namespace XV6

/-- Outcome of running a piece of kernel code: a normal result, a
`panic` with its diagnostic message, or exhaustion of the iteration
fuel given to an embedded loop (never reached when the fuel bound is
sufficient, which the wrappers arrange). -/
inductive Res (α : Type) where
  | ok : α → Res α
  | panicked : String → Res α
  | nofuel : Res α
deriving DecidableEq

/-! ## Constants from `include/mmu.h`, `include/traps.h` and `arm.h` -/

/-- `#define PGSIZE 4096` (mmu.h). -/
def PGSIZE : Nat := 4096

/-- `#define MBYTE 0x100000` (mmu.h). -/
def MBYTE : Nat := 0x100000

/-- `#define PTXSHIFT 12` (mmu.h). -/
def PTXSHIFT : Nat := 12

/-- `#define PDXSHIFT 20` (mmu.h). -/
def PDXSHIFT : Nat := 20

/-- `#define N_PD_ENTRIES 1024` (mmu.h; its own doc comment warns the
ARM directory actually has 4096 entries). -/
def N_PD_ENTRIES : Nat := 1024

/-- `#define N_PT_ENTRIES 1024` (mmu.h; its own doc comment warns the
ARM page table actually has 256 entries — `PTX` is an 8-bit index). -/
def N_PT_ENTRIES : Nat := 1024

/-- `#define PDX(va) (((u_int32)(va) >> PDXSHIFT) & 0xFFF)` (mmu.h). -/
def PDX (va : Nat) : Nat := (va >>> PDXSHIFT) &&& 0xFFF

/-- `#define PTX(va) (((u_int32)(va) >> PTXSHIFT) & 0xFF)` (mmu.h). -/
def PTX (va : Nat) : Nat := (va >>> PTXSHIFT) &&& 0xFF

/-- `#define PTE_ADDR(pte) ((u_int32)(pte) & ~0xFFF)` (mmu.h).  On the
32-bit target `~0xFFF` is `0xFFFFF000`. -/
def PTE_ADDR (pte : Nat) : Nat := pte &&& 0xFFFFF000

/-- `#define PTE_FLAGS(pte) ((u_int32)(pte) & 0xFFF)` (mmu.h). -/
def PTE_FLAGS (pte : Nat) : Nat := pte &&& 0xFFF

/-- `#define PG_ROUND_UP(sz) (((sz) + PGSIZE - 1) & ~(PGSIZE - 1))`
(mmu.h); the mask keeps bits 12..31 exactly as the u_int32 arithmetic
does. -/
def PG_ROUND_UP (sz : Nat) : Nat := (sz + PGSIZE - 1) &&& 0xFFFFF000

/-- `#define PG_ROUND_DOWN(sz) (((sz)) & ~(PGSIZE - 1))` (mmu.h). -/
def PG_ROUND_DOWN (sz : Nat) : Nat := sz &&& 0xFFFFF000

/-- `#define PDX_ATRB_PTX_ENTRY (1)` (mmu.h). -/
def PDX_ATRB_PTX_ENTRY : Nat := 1

/-- `#define PDX_ATRB_SECTION_ENTRY (2)` (mmu.h). -/
def PDX_ATRB_SECTION_ENTRY : Nat := 2

/-- `#define PDX_ATRB_DOMAIN0 0` (mmu.h). -/
def PDX_ATRB_DOMAIN0 : Nat := 0

/-- `#define PTX_ATRB_SMALL 0x2` (mmu.h). -/
def PTX_ATRB_SMALL : Nat := 2

/-- `#define PTX_ATRB_BUFFERED 0x4` (mmu.h). -/
def PTX_ATRB_BUFFERED : Nat := 4

/-- `#define PTX_ATRB_CACHED 0x8` (mmu.h). -/
def PTX_ATRB_CACHED : Nat := 8

/-- `#define PTX_ATRB_APX (1 << 9)` (mmu.h). -/
def PTX_ATRB_APX : Nat := 1 <<< 9

/-- `#define PTX_ATRB_KRW 1` (mmu.h). -/
def PTX_ATRB_KRW : Nat := 1

/-- `#define PTX_ATRB_UAP 2` (mmu.h). -/
def PTX_ATRB_UAP : Nat := 2

/-- `#define PTX_ATRB_URW 3` (mmu.h). -/
def PTX_ATRB_URW : Nat := 3

/-- `#define PTX_ATRB_ACCESS_PERM(n, ap) (((ap) & 3) << (((n) * 2) + 4))` (mmu.h). -/
def PTX_ATRB_ACCESS_PERM (n ap : Nat) : Nat := (ap &&& 3) <<< (n * 2 + 4)

/-- `PTX_ATRB_AP(ap)`: the access-permission field replicated into all
four AP slots of a small-page entry (mmu.h). -/
def PTX_ATRB_AP (ap : Nat) : Nat :=
  PTX_ATRB_ACCESS_PERM 3 ap ||| PTX_ATRB_ACCESS_PERM 2 ap |||
  PTX_ATRB_ACCESS_PERM 1 ap ||| PTX_ATRB_ACCESS_PERM 0 ap

/-- `#define PDX_ATRB_AP(ap) (PTX_ATRB_ACCESS_PERM(3, (ap)))` (mmu.h). -/
def PDX_ATRB_AP (ap : Nat) : Nat := PTX_ATRB_ACCESS_PERM 3 ap

/-- `#define UVM_PDX_ATRB (PDX_ATRB_DOMAIN0 | PDX_ATRB_PTX_ENTRY)` (mmu.h). -/
def UVM_PDX_ATRB : Nat := PDX_ATRB_DOMAIN0 ||| PDX_ATRB_PTX_ENTRY

/-- `UVM_PTX_ATRB`: the user-RW small-page attribute word (mmu.h);
evaluates to `0xDFE`. -/
def UVM_PTX_ATRB : Nat :=
  (PTX_ATRB_AP PTX_ATRB_URW ^^^ PTX_ATRB_APX) |||
  PTX_ATRB_CACHED ||| PTX_ATRB_BUFFERED ||| PTX_ATRB_SMALL

/-- `#define T_SYSCALL 0x40` (traps.h). -/
def T_SYSCALL : Nat := 0x40

/-- `#define T_IRQ 0x80` (traps.h). -/
def T_IRQ : Nat := 0x80

/-- `#define IRQ_TIMER_BIT 3` (traps.h). -/
def IRQ_TIMER_BIT : Nat := 3

/-- `#define IRQ_MINIUART_BIT 29` (traps.h). -/
def IRQ_MINIUART_BIT : Nat := 29

/-- `#define PSR_DISABLE_IRQ 0x00000080` (arm.h). -/
def PSR_DISABLE_IRQ : Nat := 0x80

/-- The low nibble of the CPSR/SPSR for ARM user mode.  `trap.c`
compares `(tf->spsr & 0xF)` against `PSR_USER_MODE`; user-mode CPSR is
`0x10`, whose low nibble is 0 (`USER_MODE 0x0` in arm.h). -/
def PSR_USER_MODE : Nat := 0

/-- Modelled from the spec: `memlayout.h` is not among the provided
sources.  The kmap comment in vm.c maps the kernel window at
`0x80000000`, and `loaduvm`'s panic message pins the user bound at
`0x80000000` ("user address space exceeds the allowed space
(> 0x80000000)"). -/
def KERNBASE : Nat := 0x80000000

/-- Modelled from the spec: the upper bound of user virtual addresses,
`0x80000000` (see `KERNBASE`). -/
def USERBOUND : Nat := 0x80000000

/-- `p2v(pa)`: add the kernel base (memlayout.h, modelled from the
spec: "p2v(pa) adds a constant kernel base"). -/
def p2v (pa : Nat) : Nat := pa + KERNBASE

/-- `v2p(kva)`: subtract the kernel base (only applied to addresses in
the directly mapped kernel window, which are ≥ `KERNBASE`). -/
def v2p (kva : Nat) : Nat := kva - KERNBASE

/-! ## The virtual-memory state (vm.c)

A page directory together with the physical pages behind it.  `l1 j`
is the 32-bit L1 entry at directory index `j` (0 = unmapped); `l2 t i`
is the 32-bit L2 entry at index `i` of the page-table page whose
physical base address is `t`; `mem pa off` is the byte at offset `off`
of the physical data page based at `pa`.  The physical page allocator
(`alloc_page`/`free_page`, called `kalloc`/`kfree` by the sources) is
an external collaborator per the spec; it is modelled as the queue
`freeList` of kernel-window virtual addresses plus the log `freed` of
pages handed back. -/
structure VM where
  l1 : Nat → Nat
  l2 : Nat → Nat → Nat
  mem : Nat → Nat → Nat
  freeList : List Nat
  freed : List Nat

/-- Point update of a one-argument table. -/
def upd1 (f : Nat → Nat) (k v : Nat) : Nat → Nat :=
  fun x => if x = k then v else f x

/-- Point update of the first argument of a two-argument table. -/
def upd2 {α : Type} (f : Nat → α) (k : Nat) (g : α) : Nat → α :=
  fun x => if x = k then g else f x

/-- Modelled from the spec: `alloc_page()` returns a fresh
kernel-window page or null; here it pops the head of `freeList`. -/
def kalloc (s : VM) : Option (Nat × VM) :=
  match s.freeList with
  | [] => none
  | m :: rest => some (m, { s with freeList := rest })

/-- Modelled from the spec: `free_page(kva)` returns a page to the
allocator; here it is logged in `freed`. -/
def kfreePage (s : VM) (kva : Nat) : VM :=
  { s with freed := kva :: s.freed }

/-- Write the L2 entry at index `idx` of the table based at `tbl`. -/
def writeL2 (s : VM) (tbl idx v : Nat) : VM :=
  { s with l2 := upd2 s.l2 tbl (upd1 (s.l2 tbl) idx v) }

/-- `walkpgdir(pgdir, va, l1attr, alloc)` (vm.c): return the location
of the L2 entry for `va` as the pair (physical table base, index), or
`none` for C's null return.  If the L1 entry is absent and `alloc` is
set, a page is allocated, zeroed, and installed as
`v2p(pgtab) | l1attr`. -/
def walkpgdir (s : VM) (va l1attr : Nat) (alloc : Bool) :
    Option (VM × Nat × Nat) :=
  let pde := s.l1 (PDX va)
  if pde ≠ 0 then
    some (s, PTE_ADDR pde, PTX va)
  else if alloc then
    match kalloc s with
    | none => none
    | some (pgtab, s1) =>
      let pa := v2p pgtab
      some ({ s1 with l2 := upd2 s1.l2 pa (fun _ => 0),
                      l1 := upd1 s1.l1 (PDX va) (pa ||| l1attr) },
            pa, PTX va)
  else none

/-- The 4 KiB-page loop of `mappages` (vm.c, table mode): walk with
`alloc = 1`, `panic("remap")` on a non-zero target slot, write
`pa | l2attr`, advance `a` and `pa` by `PGSIZE` until `a == last`.
`fuel` bounds the iterations (the wrapper passes one unit per page in
the range, which is exact). -/
def mapTblLoop (s : VM) (a last pa l1attr l2attr : Nat) :
    Nat → Res (VM × Int)
  | 0 => .nofuel
  | fuel + 1 =>
    match walkpgdir s a l1attr true with
    | none => .ok (s, -1)
    | some (s1, tbl, idx) =>
      if s1.l2 tbl idx ≠ 0 then .panicked "remap"
      else
        let s2 := writeL2 s1 tbl idx (pa ||| l2attr)
        if a = last then .ok (s2, 0)
        else mapTblLoop s2 (a + PGSIZE) last (pa + PGSIZE) l1attr l2attr fuel

/-- The 1 MiB-section loop of `mappages` (vm.c, section mode): the L1
slot must be zero (`panic("remap")`), then `pa | l1attr` is written
directly into the directory. -/
def mapSecLoop (s : VM) (a last pa l1attr : Nat) : Nat → Res (VM × Int)
  | 0 => .nofuel
  | fuel + 1 =>
    if a > last then .ok (s, 0)
    else if s.l1 (PDX a) ≠ 0 then .panicked "remap"
    else
      mapSecLoop { s with l1 := upd1 s.l1 (PDX a) (pa ||| l1attr) }
        (a + MBYTE) last (pa + MBYTE) l1attr fuel

/-- `mappages(pgdir, va, size, pa, l1attr, l2attr)` (vm.c).  `va` and
`size` need not be page-aligned; the mode is chosen by the attribute
bits of `l1attr`.  (The C expression `va + size - 1` is u_int32
arithmetic; for `va = size = 0` it would wrap, so callers pass
`size ≥ 1`.) -/
def mappages (s : VM) (va size pa l1attr l2attr : Nat) : Res (VM × Int) :=
  let a := PG_ROUND_DOWN va
  let last := PG_ROUND_DOWN (va + size - 1)
  if PDX_ATRB_SECTION_ENTRY &&& l1attr ≠ 0 then
    mapSecLoop s a last pa l1attr ((last - a) / MBYTE + 1)
  else if PDX_ATRB_PTX_ENTRY &&& l1attr ≠ 0 then
    mapTblLoop s a last pa l1attr l2attr ((last - a) / PGSIZE + 1)
  else .panicked "Unknown page attribute"

/-- The page loop of `deallocuvm` (vm.c): for `a` from
`PG_ROUND_UP(newsz)` while `a < oldsz`, walk without allocating; on a
null walk result skip `(N_PT_ENTRIES - 1) * PGSIZE` extra bytes (the
`for` increment adds the final `PGSIZE`); on a non-zero entry free the
physical page — `panic("kfree")` if its address field is zero — and
clear the entry.  One unit of fuel per iteration. -/
def deallocLoop (s : VM) (a oldsz : Nat) : Nat → Res VM
  | 0 => .nofuel
  | fuel + 1 =>
    if a < oldsz then
      match walkpgdir s a UVM_PDX_ATRB false with
      | none => deallocLoop s (a + N_PT_ENTRIES * PGSIZE) oldsz fuel
      | some (_, tbl, idx) =>
        let pte := s.l2 tbl idx
        if pte ≠ 0 then
          let pa := PTE_ADDR pte
          if pa = 0 then .panicked "kfree"
          else deallocLoop (writeL2 (kfreePage s (p2v pa)) tbl idx 0)
                 (a + PGSIZE) oldsz fuel
        else deallocLoop s (a + PGSIZE) oldsz fuel
    else .ok s

/-- `deallocuvm(pgdir, oldsz, newsz)` (vm.c): bring the process size
from `oldsz` down to `newsz`; returns `oldsz` unchanged when
`newsz ≥ oldsz`, else runs the page loop and returns `newsz`. -/
def deallocuvm (s : VM) (oldsz newsz : Nat) : Res (VM × Nat) :=
  if newsz ≥ oldsz then .ok (s, oldsz)
  else
    match deallocLoop s (PG_ROUND_UP newsz) oldsz (oldsz / PGSIZE + 2) with
    | .ok s1 => .ok (s1, newsz)
    | .panicked m => .panicked m
    | .nofuel => .nofuel

/-- The page loop of `allocuvm` (vm.c): for `a` from
`PG_ROUND_UP(oldsz)` while `a < newsz`, allocate a page (`kalloc`); on
failure print, roll back via `deallocuvm(pgdir, newsz, oldsz)` and
return 0; otherwise zero the page and map it at `a` with
`UVM_PDX_ATRB`/`UVM_PTX_ATRB`.  The return value of `mappages` is
ignored, exactly as in the source. -/
def allocLoop (s : VM) (a newsz oldsz : Nat) : Nat → Res (VM × Nat)
  | 0 => .nofuel
  | fuel + 1 =>
    if a < newsz then
      match kalloc s with
      | none =>
        match deallocuvm s newsz oldsz with
        | .ok (s1, _) => .ok (s1, 0)
        | .panicked m => .panicked m
        | .nofuel => .nofuel
      | some (m, s1) =>
        let s2 := { s1 with mem := upd2 s1.mem (v2p m) (fun _ => 0) }
        match mappages s2 a PGSIZE (v2p m) UVM_PDX_ATRB UVM_PTX_ATRB with
        | .ok (s3, _) => allocLoop s3 (a + PGSIZE) newsz oldsz fuel
        | .panicked msg => .panicked msg
        | .nofuel => .nofuel
    else .ok (s, newsz)

/-- `allocuvm(pgdir, oldsz, newsz)` (vm.c): grow the process from
`oldsz` to `newsz`; 0 when `newsz ≥ USERBOUND`, `oldsz` when
`newsz < oldsz`, else the page loop. -/
def allocuvm (s : VM) (oldsz newsz : Nat) : Res (VM × Nat) :=
  if newsz ≥ USERBOUND then .ok (s, 0)
  else if newsz < oldsz then .ok (s, oldsz)
  else
    allocLoop s (PG_ROUND_UP oldsz) newsz oldsz
      ((newsz - PG_ROUND_UP oldsz) / PGSIZE + 2)

/-- `uva2ka(pgdir, uva)` (vm.c): translate a user virtual address to a
kernel-window address.  The source dereferences the walk result
*before* checking it for null, so an absent L1 entry is a null-pointer
dereference; that undefined behaviour is modelled as a distinguished
crash outcome. -/
def uva2ka (s : VM) (uva : Nat) : Res Nat :=
  match walkpgdir s uva UVM_PDX_ATRB false with
  | none => .panicked "uva2ka: null pte dereferenced"
  | some (_, tbl, idx) =>
    let pte := s.l2 tbl idx
    if pte = 0 then .ok 0
    else if pte &&& PTX_ATRB_AP PTX_ATRB_UAP = 0 then .ok 0
    else .ok (p2v (PTE_ADDR pte))

/-- `memmove(pa0 + (va - va0), buf, n)` inside `copyout`: write `n`
source bytes (starting at `bufOff`) into the physical page `page` at
byte offsets `off ..< off + n`. -/
def memwrite (s : VM) (page off : Nat) (buf : Nat → Nat) (bufOff n : Nat) : VM :=
  let g : Nat → Nat :=
    fun i => if off ≤ i ∧ i < off + n then buf (bufOff + (i - off)) else s.mem page i
  { s with mem := upd2 s.mem page g }

/-- The page loop of `copyout` (vm.c): per page, translate with
`uva2ka` (failure returns −1), copy `min(PGSIZE − (va − va0), len)`
bytes, advance.  One unit of fuel per iteration; each iteration copies
at least one byte, so `len + 1` units suffice. -/
def copyoutLoop (s : VM) (va : Nat) (buf : Nat → Nat) (bufOff len : Nat) :
    Nat → Res (VM × Int)
  | 0 => .nofuel
  | fuel + 1 =>
    if len > 0 then
      let va0 := PG_ROUND_DOWN va
      match uva2ka s va0 with
      | .panicked m => .panicked m
      | .nofuel => .nofuel
      | .ok pa0 =>
        if pa0 = 0 then .ok (s, -1)
        else
          let n := min (PGSIZE - (va - va0)) len
          let s1 := memwrite s (v2p pa0) (va - va0) buf bufOff n
          copyoutLoop s1 (va0 + PGSIZE) buf (bufOff + n) (len - n) fuel
    else .ok (s, 0)

/-- `copyout(pgdir, va, p, len)` (vm.c): copy `len` bytes from the
kernel buffer `buf` to user address `va` of `pgdir`. -/
def copyout (s : VM) (va : Nat) (buf : Nat → Nat) (len : Nat) : Res (VM × Int) :=
  copyoutLoop s va buf 0 len (len + 1)

/-! ## The `sys_sleep` loop (sysproc.c, both variants)

The loop is driven by the tick counter, which an external timer
handler advances between wakeups; a run of the loop is therefore a
function of the observation trace: the successive values of
`(ticks, curr_proc->killed)` read under `ticks_lock` at each
evaluation of the `while` condition.  The first observation is taken
immediately after `ticks0 = ticks`, so its tick component equals
`ticks0`.  `none` means the trace ended with the process still
sleeping. -/

/-- 32-bit unsigned subtraction `a - b`. -/
def usub32 (a b : Nat) : Nat := (a % 2 ^ 32 + 2 ^ 32 - b % 2 ^ 32) % 2 ^ 32

/-- The loop condition of `sys_sleep` in `src/source/sysproc.c`
(line 68): `while(ticks - ticks0 < n)` — u_int32 subtraction, `n`
converted to u_int32 by the usual arithmetic conversions. -/
def sleepCondSrc (tick ticks0 n : Nat) : Bool :=
  usub32 tick ticks0 < n % 2 ^ 32

/-- The loop condition of `sys_sleep` in `src/unnamed/part_001`
(line 149): `while (ticks - (ticks0 < n))` — the comparison
`ticks0 < n` yields 0 or 1, which is subtracted from `ticks`; the loop
runs while that difference is non-zero. -/
def sleepCondTypo (tick ticks0 n : Nat) : Bool :=
  usub32 tick (if ticks0 % 2 ^ 32 < n % 2 ^ 32 then 1 else 0) ≠ 0

/-- The body of `sys_sleep` after `ticks0 = ticks` (sysproc.c): while
the condition holds, return −1 if the process was killed, else sleep
on `&ticks` and re-evaluate at the next wakeup; once the condition
fails, release and return 0. -/
def sysSleepLoop (cond : Nat → Nat → Nat → Bool) (n ticks0 : Nat) :
    List (Nat × Bool) → Option Int
  | [] => none
  | (t, k) :: obs =>
    if cond t ticks0 n then
      if k then some (-1) else sysSleepLoop cond n ticks0 obs
    else some 0

/-! ## The interrupt-disable nesting (spinlock.c: pushcli/popcli)

Only the IRQ-disable bit of the CPSR matters to this code; `irqOn`
models that bit (`true` = interrupts enabled, i.e. `PSR_DISABLE_IRQ`
clear), `ncli` is `curr_cpu->ncli` and `irqEnabled` is
`curr_cpu->irq_enabled`. -/
structure CpuSt where
  ncli : Int
  irqEnabled : Bool
  irqOn : Bool
deriving DecidableEq, Repr

/-- `pushcli()` (spinlock.c): read the CPSR, `cli()`, and if the
counter was zero before the post-increment, record whether IRQs were
enabled. -/
def pushcli (s : CpuSt) : CpuSt :=
  let wasOn := s.irqOn
  let s1 := { s with irqOn := false }
  if s.ncli = 0 then { s1 with ncli := s.ncli + 1, irqEnabled := wasOn }
  else { s1 with ncli := s.ncli + 1 }

/-- `popcli()` (spinlock.c): panic if IRQs are currently enabled,
panic if the pre-decremented counter goes negative, and re-enable
IRQs (`sti()`) when the counter reaches zero and they were enabled at
the outermost `pushcli`. -/
def popcli (s : CpuSt) : Res CpuSt :=
  if s.irqOn then .panicked "popcli - interruptible"
  else if s.ncli - 1 < 0 then .panicked "popcli"
  else if s.ncli - 1 = 0 ∧ s.irqEnabled then
    .ok { s with ncli := s.ncli - 1, irqOn := true }
  else .ok { s with ncli := s.ncli - 1 }

/-- A call in a `pushcli`/`popcli` sequence. -/
inductive CliOp where
  | push : CliOp
  | pop : CliOp
deriving DecidableEq, Repr

/-- Run a sequence of `pushcli`/`popcli` calls. -/
def cliRun (s : CpuSt) : List CliOp → Res CpuSt
  | [] => .ok s
  | CliOp.push :: ops => cliRun (pushcli s) ops
  | CliOp.pop :: ops =>
    match popcli s with
    | .ok s1 => cliRun s1 ops
    | .panicked m => .panicked m
    | .nofuel => .nofuel

/-! ## The process table (proc.c part of spinlock.c)

`NPROC` and `NOFILE` live in `param.h`, which is not among the
provided sources; the xv6 defaults are used (no claim depends on the
actual values).  Cross-PCB pointers are modelled as table indices; the
file/inode façade (`filedup`, `fileclose`, `idup`, `iput`, `namei`)
is external per the spec and is modelled by logs of the handles passed
to it, with `0` the null handle. -/

/-- Modelled from the spec: the process-table size from `param.h`. -/
def NPROC : Nat := 64

/-- Modelled from the spec: open files per process, from `param.h`. -/
def NOFILE : Nat := 16

/-- `enum proc_state` (proc.h). -/
inductive PState where
  | unused | embryo | sleeping | runnable | running | zombie
deriving DecidableEq, Repr

/-- A sleep channel: the null channel, the address of a PCB (used by
`wait`/`exit`), or the address of the global `ticks` counter (used by
`sys_sleep`). -/
inductive Chan where
  | cnull : Chan
  | cproc : Nat → Chan
  | cticks : Chan
deriving DecidableEq, Repr

/-- The trapframe (file.h / exception.S layout). -/
structure TF where
  sp : Nat
  r0 : Nat
  r1 : Nat
  r2 : Nat
  r3 : Nat
  r4 : Nat
  r5 : Nat
  r6 : Nat
  r7 : Nat
  r8 : Nat
  r9 : Nat
  r10 : Nat
  r11 : Nat
  r12 : Nat
  r13 : Nat
  r14 : Nat
  trapno : Nat
  ifar : Nat
  cpsr : Nat
  spsr : Nat
  pc : Nat
deriving DecidableEq, Repr

/-- The all-zero trapframe: `spawn_proc` zeroes the fresh kernel stack
(`memset(p->kstack, 0, PGSIZE)`) and points `p->tf` into it. -/
def tfZero : TF :=
  { sp := 0, r0 := 0, r1 := 0, r2 := 0, r3 := 0, r4 := 0, r5 := 0, r6 := 0
    r7 := 0, r8 := 0, r9 := 0, r10 := 0, r11 := 0, r12 := 0, r13 := 0, r14 := 0
    trapno := 0, ifar := 0, cpsr := 0, spsr := 0, pc := 0 }

/-- `struct proc` (proc.h), restricted to the fields the claims are
about.  `pgdir` and `kstack` are kernel addresses with 0 for null;
`parent` is a table index (`none` = null pointer); `tf` is the
trapframe contents at the top of the kernel stack (`none` before a
stack exists); the saved context (`pc = fork_return`, `lr = trapret`)
is not modelled — no claim refers to it. -/
structure PCB where
  sz : Nat
  pgdir : Nat
  kstack : Nat
  state : PState
  pid : Nat
  parent : Option Nat
  tf : Option TF
  channel : Chan
  killed : Bool
  ofile : List Nat
  cwd : Nat
  name : String
deriving DecidableEq, Repr

/-- A PCB slot as `pinit`'s `memset(&ptable, 0, sizeof(ptable))`
leaves it: everything zero / null / `UNUSED`. -/
def pcbZero : PCB :=
  { sz := 0, pgdir := 0, kstack := 0, state := .unused, pid := 0,
    parent := none, tf := none, channel := .cnull, killed := false,
    ofile := List.replicate NOFILE 0, cwd := 0, name := "" }

/-- The kernel state seen by proc.c: the process table, the PID
counter, `cpus[0].proc` (`curr_proc`), `init_proc`, the page
allocator (one shared `kalloc` free list, as in the kernel), and the
logs of calls into the external file/inode façade. -/
structure KState where
  procs : List PCB
  nextPid : Nat
  curr : Option Nat
  initIdx : Option Nat
  pageFree : List Nat
  freedPages : List Nat
  fileDups : List Nat
  fileCloses : List Nat
  inodeDups : List Nat
  inodePuts : List Nat
deriving DecidableEq, Repr

/-- Modelled from the spec: `namei("/")` returns the root inode of the
opaque file-system façade; any fixed non-null handle will do. -/
def rootInode : Nat := 1

/-- The state `pinit` (proc.c) establishes, parametrised by the
allocator's initial free-page supply. -/
def initKState (free : List Nat) : KState :=
  { procs := List.replicate NPROC pcbZero, nextPid := 1, curr := none,
    initIdx := none, pageFree := free, freedPages := [], fileDups := [],
    fileCloses := [], inodeDups := [], inodePuts := [] }

/-- `spawn_proc(p)` (proc.c): mark the slot `EMBRYO`, assign
`pid = next_pid++`, then allocate the kernel stack; on allocation
failure the slot's `state` goes back to `UNUSED` (with `p->kstack`
assigned the null result) — but its `pid` is left as assigned.  On
success the stack page is zeroed and `p->tf` carved out at its top
(hence the all-zero trapframe contents). -/
def spawnProc (s : KState) (i : Nat) : Option Nat × KState :=
  match s.procs[i]? with
  | none => (none, s)
  | some p =>
    let p1 := { p with state := PState.embryo, pid := s.nextPid }
    let s1 := { s with procs := s.procs.set i p1, nextPid := s.nextPid + 1 }
    match s1.pageFree with
    | [] => (none, { s1 with procs := s1.procs.set i { p1 with kstack := 0, state := PState.unused } })
    | k :: rest =>
      (some i,
       { s1 with
           pageFree := rest,
           procs := s1.procs.set i { p1 with kstack := k, tf := some tfZero } })

/-- `allocproc()` (proc.c): scan the table for the first `UNUSED`
slot and `spawn_proc` it; `(none, s)` when the table is full. -/
def allocproc (s : KState) : Option Nat × KState :=
  match s.procs.findIdx? (fun p => decide (p.state = PState.unused)) with
  | none => (none, s)
  | some i => spawnProc s i

/-- `fork()` (proc.c): allocate a PCB, `copyuvm` the parent's address
space (modelled from the spec as a fresh page-directory allocation
that fails on memory exhaustion; the per-page deep copy is the VM
model's `copyuvm`), copy `sz`/`parent`/trapframe, zero the child's
`r0`, `filedup` each open file, `idup` the cwd, record the PID, mark
`RUNNABLE`, and return the child's PID; on `copyuvm` failure free the
kernel stack, clear it, mark `UNUSED` and return −1. -/
def fork (s : KState) : Res (KState × Int) :=
  match s.curr with
  | none => .panicked "fork: curr_proc is null"
  | some c =>
    match allocproc s with
    | (none, s1) => .ok (s1, -1)
    | (some i, s1) =>
      match s1.procs[i]?, s1.procs[c]? with
      | some np, some cp =>
        match s1.pageFree with
        | [] =>
          .ok ({ s1 with
                   freedPages := np.kstack :: s1.freedPages,
                   procs := s1.procs.set i
                     { np with pgdir := 0, kstack := 0, state := PState.unused } },
               -1)
        | d :: rest =>
          let np1 := { np with
            pgdir := d, sz := cp.sz, parent := some c,
            tf := cp.tf.map (fun t => { t with r0 := 0 }),
            ofile := List.zipWith (fun pf cf => if pf ≠ 0 then pf else cf) cp.ofile np.ofile,
            cwd := cp.cwd, state := PState.runnable, name := cp.name }
          .ok ({ s1 with
                   pageFree := rest,
                   procs := s1.procs.set i np1,
                   fileDups := s1.fileDups ++ cp.ofile.filter (fun f => f ≠ 0),
                   inodeDups := s1.inodeDups ++ [cp.cwd] },
               (np.pid : Int))
      | _, _ => .panicked "fork: bad table index"

/-- `userinit()` (proc.c): allocate a PCB, record it as `init_proc`,
build its page directory via `setupkvm` (one page; panic
"userinit: out of memory?" on failure), `inituvm` the initcode blob
(one more page; `inituvm` does not check its `kalloc`, so failure is a
null dereference), set `sz = PGSIZE`, zero the trapframe and set
`spsr = 0x10`, `sp = PGSIZE`, `pc = 0`, name it "initcode", resolve
`cwd = namei("/")`, and mark it `RUNNABLE`. -/
def userinit (s : KState) : Res KState :=
  match allocproc s with
  | (none, _) => .panicked "userinit: null allocproc result dereferenced"
  | (some i, s1) =>
    let s2 := { s1 with initIdx := some i }
    match s2.pageFree with
    | [] => .panicked "userinit: out of memory?"
    | d :: rest =>
      match rest with
      | [] => .panicked "inituvm: null kalloc result dereferenced"
      | _initPage :: rest2 =>
        match s2.procs[i]? with
        | none => .panicked "userinit: bad table index"
        | some p =>
          let p1 := { p with
            pgdir := d, sz := PGSIZE,
            tf := some { tfZero with spsr := 0x10, sp := PGSIZE, pc := 0 },
            name := "initcode", cwd := rootInode, state := PState.runnable }
          .ok { s2 with pageFree := rest2, procs := s2.procs.set i p1 }

/-- `wakeup_1(chan)` (proc.c): set every `SLEEPING` process whose
channel matches to `RUNNABLE`. -/
def wakeup1 (s : KState) (ch : Chan) : KState :=
  { s with procs := s.procs.map (fun q =>
      if q.state = PState.sleeping ∧ q.channel = ch then { q with state := PState.runnable } else q) }

/-- `wakeup(chan)` (proc.c): the ptable-lock wrapper of `wakeup_1`. -/
def wakeup (s : KState) (ch : Chan) : KState := wakeup1 s ch

/-- `exit()` (proc.c): forbidden for the init process; close all open
files, `iput` the cwd, wake the parent, re-parent live children to
`init_proc` (waking init for any `ZOMBIE` child handed over), mark
the caller `ZOMBIE` and enter the scheduler (never returns).  The
per-child `wakeup_1(init_proc)` calls of the source's scan commute
with the re-parenting (a wakeup changes only `SLEEPING`→`RUNNABLE`,
which the scan never reads), so they are modelled as one wakeup after
the scan. -/
def exitProc (s : KState) : Res KState :=
  match s.curr with
  | none => .panicked "exit: curr_proc is null"
  | some c =>
    match s.procs[c]? with
    | none => .panicked "exit: bad table index"
    | some p =>
      if s.initIdx = some c then .panicked "init exiting"
      else
        let s1 := { s with
          fileCloses := s.fileCloses ++ p.ofile.filter (fun f => f ≠ 0),
          inodePuts := s.inodePuts ++ [p.cwd],
          procs := s.procs.set c { p with ofile := p.ofile.map (fun _ => 0), cwd := 0 } }
        let parentChan : Chan :=
          match p.parent with
          | some pi => Chan.cproc pi
          | none => Chan.cnull
        let s2 := wakeup1 s1 parentChan
        let anyZombieChild := s2.procs.any (fun q => decide (q.parent = some c ∧ q.state = PState.zombie))
        let s3 := { s2 with procs := s2.procs.map (fun q =>
          if q.parent = some c then { q with parent := s.initIdx } else q) }
        let initChan : Chan :=
          match s.initIdx with
          | some ii => Chan.cproc ii
          | none => Chan.cnull
        let s4 := if anyZombieChild then wakeup1 s3 initChan else s3
        match s4.procs[c]? with
        | none => .panicked "exit: bad table index"
        | some p4 => .ok { s4 with procs := s4.procs.set c { p4 with state := PState.zombie } }

/-- One iteration of `wait()`'s scan loop (proc.c): reap the first
`ZOMBIE` child (free its kstack, `freevm` its pgdir — which panics on
a null pgdir — reset `state`/`pid`/`parent`/`name`/`killed`, but,
faithful to the source, leave `p->pgdir` itself untouched) and return
its PID; with no children at all, or if the caller was killed, return
−1; otherwise sleep on the caller's own PCB (the next iteration is a
separate `Step` after a wakeup). -/
def waitOnce (s : KState) : Res (KState × Option Int) :=
  match s.curr with
  | none => .panicked "wait: curr_proc is null"
  | some c =>
    match s.procs[c]? with
    | none => .panicked "wait: bad table index"
    | some pc =>
      let hasKids := s.procs.any (fun q => decide (q.parent = some c))
      match s.procs.findIdx? (fun q => decide (q.parent = some c ∧ q.state = PState.zombie)) with
      | some j =>
        match s.procs[j]? with
        | none => .panicked "wait: bad child index"
        | some pj =>
          if pj.pgdir = 0 then .panicked "freevm: no pgdir"
          else
            .ok ({ s with
                     freedPages := pj.pgdir :: pj.kstack :: s.freedPages,
                     procs := s.procs.set j
                       { pj with
                           kstack := 0, state := PState.unused, pid := 0,
                           parent := none, name := "", killed := false } },
                 some (pj.pid : Int))
      | none =>
        if ¬hasKids ∨ pc.killed then .ok (s, some (-1))
        else
          .ok ({ s with
                   procs := s.procs.set c
                     { pc with channel := Chan.cproc c, state := PState.sleeping } },
               none)

/-- The scan of `kill(pid)` (proc.c): find the first slot whose `pid`
field matches, set `killed = 1` and lift `SLEEPING` to `RUNNABLE`. -/
def killScan (pid : Nat) : List PCB → Option (List PCB)
  | [] => none
  | p :: ps =>
    if p.pid = pid then
      some ({ p with
                killed := true,
                state := if p.state = PState.sleeping then PState.runnable else p.state } :: ps)
    else
      match killScan pid ps with
      | some ps1 => some (p :: ps1)
      | none => none

/-- `kill(pid)` (proc.c): 0 and the updated table on a hit, −1 and an
unchanged state otherwise. -/
def kill (s : KState) (pid : Nat) : KState × Int :=
  match killScan pid s.procs with
  | some ps => ({ s with procs := ps }, 0)
  | none => (s, -1)

/-- `yield()` / the state change of `sleep()` / scheduler dispatch:
point updates of one slot's scheduling fields. -/
def setPState (s : KState) (i : Nat) (st : PState) : KState :=
  match s.procs[i]? with
  | none => s
  | some p => { s with procs := s.procs.set i { p with state := st } }

/-- The suspension half of `sleep(chan, lk)` (proc.c): record the
channel and mark the caller `SLEEPING` (the `sched()` switch and the
lock swap do not touch the modelled fields). -/
def sleepSet (s : KState) (i : Nat) (ch : Chan) : KState :=
  match s.procs[i]? with
  | none => s
  | some p => { s with procs := s.procs.set i { p with channel := ch, state := PState.sleeping } }

/-- The cleanup after `sched()` returns inside `sleep`:
`curr_proc->channel = 0`. -/
def chanClear (s : KState) (i : Nat) : KState :=
  match s.procs[i]? with
  | none => s
  | some p => { s with procs := s.procs.set i { p with channel := Chan.cnull } }

/-- The scheduler's dispatch of a `RUNNABLE` process (proc.c):
`curr_proc = p; p->state = RUNNING` (the page-table switch is the VM
model's business). -/
def schedTo (s : KState) (i : Nat) : KState :=
  match s.procs[i]? with
  | none => s
  | some p => { s with curr := some i, procs := s.procs.set i { p with state := PState.running } }

/-- One transition of the process subsystem at operation granularity:
each constructor is one proc.c operation run by the kernel (operations
executed *by* a process carry the hypothesis that `curr_proc` is a
valid `RUNNING` slot — only a running process executes code).
`growproc` only changes `sz` (and the VM state), so it is not a
separate constructor. -/
inductive Step : KState → KState → Prop where
  | alloc (s : KState) : Step s (allocproc s).2
  | uinit (s s' : KState) : userinit s = .ok s' → Step s s'
  | dofork (s s' : KState) (c : Nat) (p : PCB) (r : Int) :
      s.curr = some c → s.procs[c]? = some p → p.state = PState.running →
      fork s = .ok (s', r) → Step s s'
  | doexit (s s' : KState) (c : Nat) (p : PCB) :
      s.curr = some c → s.procs[c]? = some p → p.state = PState.running →
      exitProc s = .ok s' → Step s s'
  | dowait (s s' : KState) (c : Nat) (p : PCB) (r : Option Int) :
      s.curr = some c → s.procs[c]? = some p → p.state = PState.running →
      waitOnce s = .ok (s', r) → Step s s'
  | dokill (s : KState) (pid : Nat) : Step s (kill s pid).1
  | doyield (s : KState) (c : Nat) (p : PCB) :
      s.curr = some c → s.procs[c]? = some p → p.state = PState.running →
      Step s (setPState s c PState.runnable)
  | dosleep (s : KState) (c : Nat) (p : PCB) (ch : Chan) :
      s.curr = some c → s.procs[c]? = some p → p.state = PState.running →
      Step s (sleepSet s c ch)
  | doclearchan (s : KState) (c : Nat) (p : PCB) :
      s.curr = some c → s.procs[c]? = some p → p.state = PState.running →
      Step s (chanClear s c)
  | dowake (s : KState) (ch : Chan) : Step s (wakeup s ch)
  | dispatch (s : KState) (i : Nat) (p : PCB) :
      s.procs[i]? = some p → p.state = PState.runnable → Step s (schedTo s i)
  | parkCpu (s : KState) : Step s { s with curr := none }

/-- A state of the process subsystem reachable from boot:
`pinit`'s zeroed table with some supply of non-null free pages, then
any sequence of operations. -/
def ReachableK (s : KState) : Prop :=
  ∃ free : List Nat, (∀ m ∈ free, m ≠ 0) ∧
    Relation.ReflTransGen Step (initKState free) s

/-! ## The trap dispatcher (trap.c)

`trap()` is embedded as a function of what it observes: the trapframe
fields it reads, whether `curr_proc` is set, the values the volatile
`curr_proc->killed` flag has at the points where it is read (it can
change across `syscall()` and across `yield()`, and `handle_bad_trap`
sets it), whether `curr_proc->state == RUNNING` at the timer check,
and the interrupt controller's pending registers.  The calls it makes
are recorded as an event list. -/

/-- An externally visible call made by `trap()`. -/
inductive Ev where
  | timerTick : Ev
  | uartRx : Ev
  | sysc : Ev
  | markKilled : Ev
  | exitCall : Ev
  | yieldCall : Ev
deriving DecidableEq, Repr

/-- What one invocation of `trap()` observes. -/
structure TrapView where
  trapno : Nat
  spsr : Nat
  currPresent : Bool
  killed0 : Bool
  killedAfterSyscall : Bool
  killedAfterYield : Bool
  stateRunning : Bool
  p0 : Nat
  p1 : Nat
  pb : Nat
deriving DecidableEq, Repr

/-- `handle_irq(tf, &is_timer_irq)` (trap.c): loop while any pending
bit is set in `irq_pending[0]`, `irq_pending[1]` or the basic
register; service the timer (setting `is_timer_irq`) and the mini-UART.
Modelled from the spec for the device side: `timer3intr` /
`miniuartintr` are external driver callbacks and acknowledging the
device clears its pending bit.  A pending bit neither handler
recognises is never cleared, so the loop hangs — fuel exhaustion
(`none`) models the source's documented infinite-loop hazard. -/
def handleIrqLoop (p0 p1 pb : Nat) (isTimer : Bool) (acc : List Ev) :
    Nat → Option (Bool × List Ev)
  | 0 => none
  | fuel + 1 =>
    if p0 ≠ 0 ∨ p1 ≠ 0 ∨ pb ≠ 0 then
      let t1 :=
        if p0.testBit IRQ_TIMER_BIT then
          (p0 ^^^ 2 ^ IRQ_TIMER_BIT, true, acc ++ [Ev.timerTick])
        else (p0, isTimer, acc)
      let t2 :=
        if t1.1.testBit IRQ_MINIUART_BIT then
          (t1.1 ^^^ 2 ^ IRQ_MINIUART_BIT, t1.2.2 ++ [Ev.uartRx])
        else (t1.1, t1.2.2)
      handleIrqLoop t2.1 p1 pb t1.2.1 t2.2 fuel
    else some (isTimer, acc)

/-- `trap(tf)` (trap.c): syscalls go to `handle_syscall` (exit if
killed, run `syscall()`, exit if killed) and return; IRQs go to
`handle_irq`; anything else goes to `handle_bad_trap` (panic unless
the trap came from user mode with a process current, in which case the
process is marked killed).  Then, if a process is current: exit if it
is killed and the trap came from user mode; yield on a timer tick if
it is `RUNNING`; repeat the killed check after the yield. -/
def trap (v : TrapView) (fuel : Nat) : Res (List Ev) :=
  if v.trapno = T_SYSCALL then
    if v.killed0 then .ok [Ev.exitCall]
    else if v.killedAfterSyscall then .ok [Ev.sysc, Ev.exitCall]
    else .ok [Ev.sysc]
  else
    let dispatched : Res (Bool × Bool × List Ev) :=
      if v.trapno = T_IRQ then
        match handleIrqLoop v.p0 v.p1 v.pb false [] fuel with
        | none => .nofuel
        | some (isT, evs) => .ok (isT, false, evs)
      else
        if ¬v.currPresent ∨ v.spsr &&& 0xF ≠ PSR_USER_MODE then .panicked "trap"
        else .ok (false, true, [Ev.markKilled])
    match dispatched with
    | .panicked m => .panicked m
    | .nofuel => .nofuel
    | .ok (isTimer, marked, evs) =>
      if v.currPresent then
        let userMode := v.spsr &&& 0xF = PSR_USER_MODE
        let killed1 := v.killed0 || marked
        if killed1 ∧ userMode then .ok (evs ++ [Ev.exitCall])
        else if v.stateRunning ∧ isTimer then
          let evs2 := evs ++ [Ev.yieldCall]
          if v.killedAfterYield ∧ userMode then .ok (evs2 ++ [Ev.exitCall])
          else .ok evs2
        else if killed1 ∧ userMode then .ok (evs ++ [Ev.exitCall])
        else .ok evs
      else .ok evs

/-! ## Concrete states used by the failing-input theorems -/

/-- Observables of a `Res (VM × Nat)` run: the returned value, the
`kfree` log, the remaining free list, and one chosen L2 entry. -/
def vmReport (r : Res (VM × Nat)) (tbl idx : Nat) :
    Option (Nat × List Nat × List Nat × Nat) :=
  match r with
  | .ok (s1, v) => some (v, s1.freed, s1.freeList, s1.l2 tbl idx)
  | _ => none

/-- Observables of a `Res (VM × Nat)` run: the returned value, the
`kfree` log, the remaining free list, and one chosen L1 entry. -/
def vmReportL1 (r : Res (VM × Nat)) (j : Nat) :
    Option (Nat × List Nat × List Nat × Nat) :=
  match r with
  | .ok (s1, v) => some (v, s1.freed, s1.freeList, s1.l1 j)
  | _ => none

/-- A page directory whose L1 entry 0 is absent while L1 entry 1 is a
present table entry mapping one user page at virtual address
`0x100000` (physical page `0x5000`, L2 table at physical `0x42000`).
Used as `deallocuvm`'s failing input. -/
def vmSkipBug : VM :=
  { l1 := fun j => if j = 1 then 0x42000 ||| UVM_PDX_ATRB else 0,
    l2 := fun t i => if t = 0x42000 ∧ i = 0 then 0x5000 ||| UVM_PTX_ATRB else 0,
    mem := fun _ _ => 0,
    freeList := [], freed := [] }

/-- An empty page directory with exactly one free page.  Used as
`allocuvm`'s failing input: the single page is taken as the user data
page, after which `walkpgdir`'s table allocation fails and `mappages`'
−1 return is ignored. -/
def vmOnePage : VM :=
  { l1 := fun _ => 0, l2 := fun _ _ => 0, mem := fun _ _ => 0,
    freeList := [KERNBASE + 0x8000], freed := [] }

/-- An empty page directory with two free pages (concrete test state). -/
def vmTwoFree : VM :=
  { l1 := fun _ => 0, l2 := fun _ _ => 0, mem := fun _ _ => 0,
    freeList := [KERNBASE + 0x5000, KERNBASE + 0x6000], freed := [] }

/-- A running PCB with pid 1 (concrete test slot). -/
def pcbRun1 : PCB :=
  { pcbZero with pid := 1, state := PState.running, kstack := 0x80001000 }

/-- A sleeping PCB with pid 2 (concrete test slot). -/
def pcbSleep2 : PCB :=
  { pcbZero with
      pid := 2, state := PState.sleeping, kstack := 0x80002000,
      channel := Chan.cticks }

/-- A two-slot process table (concrete test state). -/
def ksTwo : KState :=
  { initKState [] with procs := [pcbRun1, pcbSleep2], nextPid := 3, curr := some 0 }

/-- A parent trapframe with distinctive values (concrete test data). -/
def tfParent : TF := { tfZero with pc := 0x77, r0 := 5, spsr := 0x10, sp := 0x2000 }

/-- A running parent PCB with one open file and a cwd (concrete test
slot for the fork witness). -/
def pcbParent : PCB :=
  { pcbZero with
      pid := 1, state := PState.running, kstack := 0x80001000,
      tf := some tfParent, ofile := 7 :: List.replicate 15 0, cwd := 2,
      sz := 8192, name := "sh" }

/-- A two-slot table with a running parent, an unused slot and two
free pages (concrete test state for the fork witness). -/
def ksFork : KState :=
  { initKState [0x80003000, 0x80004000] with
      procs := [pcbParent, pcbZero], nextPid := 2, curr := some 0 }

/-- The L2 slot for page address `a` as currently visible in `s`: 0
when the covering L1 entry is absent (no slot exists yet, so nothing
is mapped there), else the L2 entry at (table, index). -/
def slotEntry (s : VM) (a : Nat) : Nat :=
  if s.l1 (PDX a) = 0 then 0 else s.l2 (PTE_ADDR (s.l1 (PDX a))) (PTX a)

/-- Well-formedness of a VM state for the mapping operations: distinct
present L1 entries reference distinct L2 tables, and the allocator's
free pages are distinct page-aligned 32-bit kernel-window addresses
that alias no live table. -/
def VMwf (s : VM) : Prop :=
  (∀ j j' : Nat, s.l1 j ≠ 0 → s.l1 j' ≠ 0 →
      PTE_ADDR (s.l1 j) = PTE_ADDR (s.l1 j') → j = j') ∧
  s.freeList.Nodup ∧
  (∀ f ∈ s.freeList, KERNBASE < f ∧ f < 2 ^ 32 ∧ f % PGSIZE = 0 ∧
      (∀ j : Nat, s.l1 j ≠ 0 → PTE_ADDR (s.l1 j) ≠ v2p f))

/-- Page `b` is mapped to a freshly zeroed private data page `m` with
the user-RW small-page attributes (the shape `allocuvm` establishes). -/
def MappedZ (s : VM) (b : Nat) : Prop :=
  ∃ m : Nat, KERNBASE < m ∧ m < 2 ^ 32 ∧ m % PGSIZE = 0 ∧ m ∉ s.freeList ∧
    slotEntry s b = v2p m ||| UVM_PTX_ATRB ∧ s.mem (v2p m) = (fun _ => 0)

/-- A timer-IRQ trap view from user mode: running current process,
not yet killed, killed while yielded (concrete test data). -/
def vTimer : TrapView :=
  { trapno := 0x80, spsr := 0x10, currPresent := true, killed0 := false,
    killedAfterSyscall := false, killedAfterYield := true,
    stateRunning := true, p0 := 8, p1 := 0, pb := 0 }

/-- The per-PCB part of the corrected table invariant: an `UNUSED`
slot has a null kernel stack, and a non-`UNUSED` slot has a non-null
kernel stack and a non-zero pid. -/
def POk (p : PCB) : Prop :=
  (p.state = PState.unused → p.kstack = 0) ∧
  (p.state ≠ PState.unused → p.kstack ≠ 0 ∧ p.pid ≠ 0)

/-- The inductive invariant of the process table: pids start at 1, the
allocator hands out non-null pages, and every slot satisfies `POk`. -/
def KInv (s : KState) : Prop :=
  1 ≤ s.nextPid ∧ (∀ m ∈ s.pageFree, m ≠ 0) ∧ ∀ p ∈ s.procs, POk p

/-- The interrupt-nesting invariant of the claim, relative to the
state `s0` in which the sequence of calls began: the counter is
non-negative; at counter zero the CPSR interrupt state equals the
state captured before the outermost `pushcli`; inside a nesting IRQs
are disabled and the saved flag records the pre-nesting state. -/
def CliInv (s0 s' : CpuSt) : Prop :=
  0 ≤ s'.ncli ∧ (s'.ncli = 0 → s'.irqOn = s0.irqOn) ∧
    (0 < s'.ncli → s'.irqOn = false ∧ s'.irqEnabled = s0.irqOn)

/-! # Theorems -/

/-- Any run of `pushcli`/`popcli` calls preserves the nesting
invariant `CliInv` (stated against the fixed reference flag `b`, the
IRQ-enable state at the start of the whole sequence). -/
theorem cliRun_preserves (b : Bool) (ops : List CliOp) :
    ∀ s s' : CpuSt,
      0 ≤ s.ncli → (s.ncli = 0 → s.irqOn = b) →
      (0 < s.ncli → s.irqOn = false ∧ s.irqEnabled = b) →
      cliRun s ops = .ok s' →
      0 ≤ s'.ncli ∧ (s'.ncli = 0 → s'.irqOn = b) ∧
        (0 < s'.ncli → s'.irqOn = false ∧ s'.irqEnabled = b) := by
  induction ops with
  | nil =>
    intro s s' h1 h2 h3 h
    simp only [cliRun] at h
    cases h
    exact ⟨h1, h2, h3⟩
  | cons op ops ih =>
    intro s s' h1 h2 h3 h
    cases op with
    | push =>
      simp only [cliRun] at h
      by_cases hz : s.ncli = 0
      · refine ih (pushcli s) s' ?_ ?_ ?_ h <;> simp [pushcli, hz]
        exact h2 hz
      · refine ih (pushcli s) s' ?_ ?_ ?_ h <;> simp [pushcli, hz]
        · omega
        · omega
        · intro _
          exact (h3 (by omega)).2
    | pop =>
      simp only [cliRun] at h
      cases hpc : popcli s with
      | panicked m => rw [hpc] at h; cases h
      | nofuel => rw [hpc] at h; cases h
      | ok s1 =>
        rw [hpc] at h
        unfold popcli at hpc
        split at hpc
        · cases hpc
        · split at hpc
          · cases hpc
          · rename_i hon hneg
            have hpos : 0 < s.ncli := by omega
            obtain ⟨hoff, hen⟩ := h3 hpos
            split at hpc
            · rename_i hzero
              -- the counter reached zero with the saved flag set: sti()
              cases hpc
              refine ih _ s' ?_ ?_ ?_ h
              · simp
                omega
              · intro _
                simp only
                rw [← hen]
                exact hzero.2.symm
              · intro hgt
                simp only at hgt
                omega
            · rename_i hnz
              -- counter decremented without re-enabling IRQs
              cases hpc
              refine ih _ s' ?_ ?_ ?_ h
              · simp
                omega
              · intro hz0
                simp only at hz0 ⊢
                have hef : s.irqEnabled = false := by
                  cases hb : s.irqEnabled
                  · rfl
                  · exact absurd ⟨hz0, hb⟩ hnz
                rw [hoff, ← hen, hef]
              · intro _
                simp only
                exact ⟨hoff, hen⟩

/-- C9 — for every sequence of `pushcli`/`popcli` calls starting at
nesting depth 0: any non-panicking run keeps the counter non-negative
and, whenever the counter is back at zero, the IRQ-enable state equals
the state captured at the outermost `pushcli`; when IRQs were enabled
before the sequence, `ncli = 0` coincides exactly with IRQs being
enabled.  Moreover `popcli` panics when invoked with IRQs enabled, and
panics ("popcli") on underflow of the counter. -/
theorem C9_pushcli_popcli (ops : List CliOp) (s0 : CpuSt) (h0 : s0.ncli = 0) :
    (∀ s', cliRun s0 ops = .ok s' →
        CliInv s0 s' ∧ (s0.irqOn = true → (s'.ncli = 0 ↔ s'.irqOn = true))) ∧
    (∀ s : CpuSt, s.irqOn = true → popcli s = .panicked "popcli - interruptible") ∧
    (∀ s : CpuSt, s.irqOn = false → s.ncli ≤ 0 → popcli s = .panicked "popcli") := by
  refine ⟨?_, ?_, ?_⟩
  · intro s' h
    have hI := cliRun_preserves s0.irqOn ops s0 s' (by omega) (fun _ => rfl)
      (fun hgt => absurd h0 (by omega)) h
    refine ⟨⟨hI.1, hI.2.1, hI.2.2⟩, ?_⟩
    intro hon
    constructor
    · intro hz
      rw [hI.2.1 hz, hon]
    · intro hirq
      by_contra hnz
      have hgt : 0 < s'.ncli := by
        have := hI.1
        omega
      have hf := (hI.2.2 hgt).1
      rw [hirq] at hf
      cases hf
  · intro s hon
    unfold popcli
    simp [hon]
  · intro s hoff hle
    unfold popcli
    simp only [hoff, Bool.false_eq_true, if_false]
    rw [if_pos (by omega)]

/-- Witness for C9: the two-call sequence `pushcli(); popcli()`
starting with IRQs enabled at depth 0 ends back at depth 0 with IRQs
re-enabled. -/
theorem C9_pushcli_popcli_witness :
    CliInv ⟨0, false, true⟩ ⟨0, true, true⟩ ∧
      ((⟨0, false, true⟩ : CpuSt).irqOn = true →
        (((⟨0, true, true⟩ : CpuSt).ncli = 0) ↔ ((⟨0, true, true⟩ : CpuSt).irqOn = true))) :=
  (C9_pushcli_popcli [CliOp.push, CliOp.pop] ⟨0, false, true⟩ rfl).1
    ⟨0, true, true⟩ (by decide)

/-! ## Arithmetic facts about the mmu.h bit-level macros -/

/-- Masking with `0xFFFFF000` keeps exactly bits 12..31: on 32-bit
values it is truncation to a page boundary. -/
theorem and_mask_high_eq (x : Nat) (hx : x < 2 ^ 32) :
    x &&& 0xFFFFF000 = x / 2 ^ 12 * 2 ^ 12 := by
  apply Nat.eq_of_testBit_eq
  intro i
  rw [Nat.testBit_and]
  have hm : (0xFFFFF000 : Nat) = (2 ^ 20 - 1) <<< 12 := by
    rw [Nat.shiftLeft_eq]
    norm_num
  have hv : x / 2 ^ 12 * 2 ^ 12 = (x >>> 12) <<< 12 := by
    rw [Nat.shiftRight_eq_div_pow, Nat.shiftLeft_eq]
  rw [hm, hv, Nat.testBit_shiftLeft, Nat.testBit_shiftLeft, Nat.testBit_shiftRight]
  by_cases h12 : 12 ≤ i
  · have hd : decide (i ≥ 12) = true := by simp [ge_iff_le, h12]
    rw [hd, Bool.true_and, Bool.true_and, Nat.testBit_two_pow_sub_one]
    have hi : 12 + (i - 12) = i := by omega
    rw [hi]
    by_cases h32 : i < 32
    · have hlt : i - 12 < 20 := by omega
      simp [hlt]
    · have hb : Nat.testBit x i = false := by
        apply Nat.testBit_lt_two_pow
        calc x < 2 ^ 32 := hx
          _ ≤ 2 ^ i := Nat.pow_le_pow_right (by norm_num) (by omega)
      have hge : ¬ (i - 12 < 20) := by omega
      simp [hb, hge]
  · have hd : decide (i ≥ 12) = false := by simp [ge_iff_le, h12]
    rw [hd, Bool.false_and, Bool.false_and, Bool.and_false]

theorem lor_aligned_add (a b : Nat) (ha : a % 2 ^ 12 = 0) (hb : b < 2 ^ 12) :
    a ||| b = a + b := by
  obtain ⟨q, hq⟩ : 2 ^ 12 ∣ a := Nat.dvd_of_mod_eq_zero ha
  subst hq
  apply Nat.eq_of_testBit_eq
  intro i
  rw [Nat.testBit_lor]
  by_cases h12 : i < 12
  · have hpow : (2:Nat) ^ i * (2 * 2 ^ (11 - i)) = 2 ^ 12 := by
      have h2 : (2:Nat) = 2 ^ 1 := by norm_num
      calc (2:Nat) ^ i * (2 * 2 ^ (11 - i)) = 2 ^ i * (2 ^ 1 * 2 ^ (11 - i)) := by rw [← h2]
        _ = 2 ^ (i + (1 + (11 - i))) := by rw [← pow_add, ← pow_add]
        _ = 2 ^ 12 := by congr 1; omega
    have h1 : 2 ^ 12 * q = 2 ^ i * (2 * (2 ^ (11 - i) * q)) := by
      rw [← hpow]
      ring
    have hlow : Nat.testBit (2 ^ 12 * q) i = false := by
      rw [Nat.testBit_to_div_mod, h1, Nat.mul_div_cancel_left _ (Nat.two_pow_pos i),
        Nat.mul_mod_right]
      simp
    have hsum : Nat.testBit (2 ^ 12 * q + b) i = Nat.testBit b i := by
      rw [Nat.testBit_to_div_mod, Nat.testBit_to_div_mod, h1,
        Nat.mul_add_div (Nat.two_pow_pos i), Nat.mul_add_mod]
    rw [hlow, hsum, Bool.false_or]
  · have hble : b < 2 ^ i :=
      lt_of_lt_of_le hb (Nat.pow_le_pow_right (by norm_num) (by omega))
    have hbf : Nat.testBit b i = false := Nat.testBit_lt_two_pow hble
    have hsum : Nat.testBit (2 ^ 12 * q + b) i = Nat.testBit (2 ^ 12 * q) i := by
      rw [Nat.testBit_to_div_mod, Nat.testBit_to_div_mod]
      have he : (2:Nat) ^ i = 2 ^ 12 * 2 ^ (i - 12) := by
        rw [← pow_add]
        congr 1
        omega
      have h2 : 2 ^ 12 * q % 2 ^ i = 2 ^ 12 * (q % 2 ^ (i - 12)) := by
        rw [he, Nat.mul_mod_mul_left]
      have h3 : q % 2 ^ (i - 12) < 2 ^ (i - 12) := Nat.mod_lt _ (Nat.two_pow_pos _)
      have hmod : 2 ^ 12 * q % 2 ^ i + b < 2 ^ i := by
        rw [h2, he]
        calc 2 ^ 12 * (q % 2 ^ (i - 12)) + b
            < 2 ^ 12 * (q % 2 ^ (i - 12)) + 2 ^ 12 := by omega
          _ = 2 ^ 12 * (q % 2 ^ (i - 12) + 1) := by ring
          _ ≤ 2 ^ 12 * 2 ^ (i - 12) := Nat.mul_le_mul_left _ (by omega)
      have hdiv : (2 ^ 12 * q + b) / 2 ^ i = 2 ^ 12 * q / 2 ^ i := by
        rw [Nat.add_div (Nat.two_pow_pos i)]
        have hb0 : b / 2 ^ i = 0 := Nat.div_eq_of_lt hble
        have hblt : b % 2 ^ i = b := Nat.mod_eq_of_lt hble
        rw [hb0, hblt]
        have hni : ¬ (2 ^ i ≤ 2 ^ 12 * q % 2 ^ i + b) := by omega
        rw [if_neg hni]
        omega
      rw [hdiv]
    rw [hbf, hsum, Bool.or_false]

/-- `PTE_ADDR` on a 32-bit value is truncation to a page boundary. -/
theorem PTE_ADDR_eq (x : Nat) (h : x < 2 ^ 32) : PTE_ADDR x = x / 2 ^ 12 * 2 ^ 12 :=
  and_mask_high_eq x h

/-- `PG_ROUND_DOWN` on a 32-bit value is truncation to a page boundary. -/
theorem PG_ROUND_DOWN_eq (x : Nat) (h : x < 2 ^ 32) :
    PG_ROUND_DOWN x = x / 2 ^ 12 * 2 ^ 12 :=
  and_mask_high_eq x h

/-- `PTE_FLAGS` extracts the low 12 bits. -/
theorem PTE_FLAGS_eq (x : Nat) : PTE_FLAGS x = x % 2 ^ 12 := by
  have h : (0xFFF : Nat) = 2 ^ 12 - 1 := by norm_num
  unfold PTE_FLAGS
  rw [h, Nat.and_pow_two_sub_one_eq_mod]

/-- `PDX` is the 12-bit field at bits 20..31. -/
theorem PDX_eq (va : Nat) : PDX va = va / 2 ^ 20 % 2 ^ 12 := by
  have h : (0xFFF : Nat) = 2 ^ 12 - 1 := by norm_num
  unfold PDX PDXSHIFT
  rw [h, Nat.and_pow_two_sub_one_eq_mod, Nat.shiftRight_eq_div_pow]

/-- `PTX` is the 8-bit field at bits 12..19. -/
theorem PTX_eq (va : Nat) : PTX va = va / 2 ^ 12 % 2 ^ 8 := by
  have h : (0xFF : Nat) = 2 ^ 8 - 1 := by norm_num
  unfold PTX PTXSHIFT
  rw [h, Nat.and_pow_two_sub_one_eq_mod, Nat.shiftRight_eq_div_pow]

/-- Rounding an address down to its page does not change its
directory index. -/
theorem PDX_pg_round_down (va : Nat) (h : va < 2 ^ 32) :
    PDX (PG_ROUND_DOWN va) = PDX va := by
  rw [PG_ROUND_DOWN_eq va h, PDX_eq, PDX_eq]
  omega

/-- An entry built as `table-base | attributes` with a page-aligned
32-bit base and 12-bit attributes decomposes back into its base. -/
theorem PTE_ADDR_aligned (t attr : Nat) (ht : t % 2 ^ 12 = 0)
    (h32 : t < 2 ^ 32) (ha : attr < 2 ^ 12) : PTE_ADDR (t ||| attr) = t := by
  rw [lor_aligned_add t attr ht ha, PTE_ADDR_eq _ (by omega)]
  omega

/-- An entry built as `page-base | attributes` with a page-aligned
32-bit base and 12-bit attributes decomposes back into its attributes. -/
theorem PTE_FLAGS_aligned (t attr : Nat) (ht : t % 2 ^ 12 = 0)
    (ha : attr < 2 ^ 12) : PTE_FLAGS (t ||| attr) = attr := by
  rw [lor_aligned_add t attr ht ha, PTE_FLAGS_eq]
  omega

/-- C1 — The `sys_sleep` of the documented variant
(`src/unnamed/part_001`) does not suspend for `n` ticks.  Failing
input: `n = 1`, entered at `ticks0 = 5`, with one wakeup observing
`ticks = 6` (so one full tick has elapsed).  The claim — and the
`src/source/sysproc.c` variant, whose loop condition is
`ticks - ticks0 < n` — require a return of 0 at that point; the
variant with the bracketed condition `ticks - (ticks0 < n)` is still
sleeping at the end of the trace (and would keep sleeping until the
32-bit tick counter itself reaches 0, since `(5 < 1) = 0`).  The
variant's own comment claims the brackets were "added for clarity",
i.e. that the semantics is unchanged — the code contradicts its own
documentation. -/
theorem C1_sys_sleep_typo :
    sysSleepLoop sleepCondTypo 1 5 [(5, false), (6, false)] = none ∧
    sysSleepLoop sleepCondSrc 1 5 [(5, false), (6, false)] = some 0 := by
  constructor
  · decide
  · decide

/-- C2 — `deallocuvm`'s fast-forward over an absent L1 entry skips
`N_PT_ENTRIES = 1024` pages (4 MiB), although one ARM L2 table covers
only 256 pages (1 MiB): pages lying under *present* L1 entries inside
the skipped window are silently never freed.  Failing input:
`deallocuvm(pgdir, 0x400000, 0)` on `vmSkipBug`, whose L1 entry 0 is
absent while L1 entry 1 maps a page at va `0x100000 < oldsz`.  The
claim requires that page to be freed and its L2 entry cleared; the
run returns `newsz = 0` having freed nothing (`freed = []`) and left
the entry intact. -/
theorem C2_deallocuvm_skip_eval :
    vmReport (deallocuvm vmSkipBug 0x400000 0) 0x42000 0 =
      some (0, [], [], 0x5000 ||| UVM_PTX_ATRB) := by
  decide

/-- C4 (counterexample) — the claim "if any page allocation fails it
rolls back by calling deallocuvm(pgdir, newsz, oldsz) and returns 0"
is false at `allocuvm(vmOnePage, 0, 4096)`: the lone free page is
consumed as the user data page, `walkpgdir`'s allocation of the L2
table page then fails, `mappages` returns −1, and `allocuvm` — which
ignores that return value — neither rolls back nor returns 0: it
returns `newsz = 4096` with nothing mapped (`l1 0` still absent),
nothing freed, and the data page leaked. -/
theorem C4_allocuvm_ignores_mappages_failure :
    vmReportL1 (allocuvm vmOnePage 0 4096) 0 = some (4096, [], [], 0) := by
  decide



/-- `kill`'s scan misses exactly when no slot's `pid` field matches. -/
theorem killScan_eq_none (pid : Nat) (l : List PCB)
    (h : ∀ p ∈ l, p.pid ≠ pid) : killScan pid l = none := by
  induction l with
  | nil => rfl
  | cons p ps ih =>
    have hp : p.pid ≠ pid := h p (List.mem_cons_self p ps)
    simp only [killScan, if_neg hp]
    rw [ih (fun q hq => h q (List.mem_cons_of_mem p hq))]

/-- `kill`'s scan hits the first slot whose `pid` field matches,
updates exactly that slot, and leaves the rest of the table intact. -/
theorem killScan_eq_some (pid : Nat) (l1 : List PCB) (p : PCB) (l2 : List PCB)
    (h1 : ∀ q ∈ l1, q.pid ≠ pid) (hp : p.pid = pid) :
    killScan pid (l1 ++ p :: l2) =
      some (l1 ++
        { p with
            killed := true,
            state := if p.state = PState.sleeping then PState.runnable else p.state } :: l2) := by
  induction l1 with
  | nil => simp [killScan, hp]
  | cons q l1 ih =>
    have hq : q.pid ≠ pid := h1 q (List.mem_cons_self q l1)
    simp only [List.cons_append, killScan, if_neg hq, List.append_eq]
    rw [ih (fun r hr => h1 r (List.mem_cons_of_mem q hr))]

/-- C7 — `kill(pid)`: when some table slot's `pid` field equals `pid`
(the table-entry reading of "a process with that pid exists"; pid 0 is
reserved and never assigned by `spawn_proc`, whose PIDs start at 1),
`kill` returns 0, sets that (first such) slot's `killed` flag, and
promotes it from `SLEEPING` to `RUNNABLE` — touching nothing else; when
no slot matches, it returns −1 and changes no PCB.  (`pid` is a C
`int`; negative arguments never match the non-negative `pid` fields,
so the `Nat` embedding loses nothing.) -/
theorem C7_kill (s : KState) (pid : Nat) :
    ((∀ p ∈ s.procs, p.pid ≠ pid) → kill s pid = (s, -1)) ∧
    (∀ (l1 : List PCB) (p : PCB) (l2 : List PCB),
        s.procs = l1 ++ p :: l2 → (∀ q ∈ l1, q.pid ≠ pid) → p.pid = pid →
        kill s pid =
          ({ s with procs := l1 ++
              { p with
                  killed := true,
                  state := if p.state = PState.sleeping then PState.runnable
                           else p.state } :: l2 },
           0)) := by
  constructor
  · intro h
    unfold kill
    rw [killScan_eq_none pid s.procs h]
  · intro l1 p l2 hsplit h1 hp
    unfold kill
    rw [hsplit, killScan_eq_some pid l1 p l2 h1 hp]

/-- Witness for C7: in the two-slot table `ksTwo`, `kill 2` hits the
sleeping pid-2 slot — it is promoted to `RUNNABLE` with `killed` set —
and returns 0. -/
theorem C7_kill_witness :
    kill ksTwo 2 =
      ({ ksTwo with procs := [pcbRun1] ++
          { pcbSleep2 with
              killed := true,
              state := if pcbSleep2.state = PState.sleeping then PState.runnable
                       else pcbSleep2.state } :: [] },
       0) :=
  (C7_kill ksTwo 2).2 [pcbRun1] pcbSleep2 [] rfl (by decide) rfl

/-- A non-crashing run of `copyout`'s loop: when every byte of the
remaining range lies under a present L1 entry, `uva2ka` never
dereferences a null walk result, so the loop finishes normally (with
0, or −1 on an unmapped or non-user page). -/
theorem copyoutLoop_ok (buf : Nat → Nat) :
    ∀ (fuel : Nat) (s : VM) (va bufOff len : Nat), len < fuel →
      va + len ≤ 2 ^ 32 →
      (∀ k, k < len → s.l1 (PDX (va + k)) ≠ 0) →
      ∃ r, copyoutLoop s va buf bufOff len fuel = .ok r := by
  intro fuel
  induction fuel with
  | zero =>
    intro s va bufOff len h
    omega
  | succ fuel ih =>
    intro s va bufOff len hfuel hbound hl1
    by_cases hlen : len > 0
    · have hva32 : va < 2 ^ 32 := by omega
      have hl1va : s.l1 (PDX (PG_ROUND_DOWN va)) ≠ 0 := by
        rw [PDX_pg_round_down va hva32]
        have := hl1 0 hlen
        simpa using this
      simp only [copyoutLoop, if_pos hlen]
      set pte := s.l2 (PTE_ADDR (s.l1 (PDX (PG_ROUND_DOWN va)))) (PTX (PG_ROUND_DOWN va)) with hpte
      have huva : uva2ka s (PG_ROUND_DOWN va) =
          (if pte = 0 then Res.ok 0
           else if pte &&& PTX_ATRB_AP PTX_ATRB_UAP = 0 then Res.ok 0
           else Res.ok (p2v (PTE_ADDR pte))) := by
        unfold uva2ka walkpgdir
        rw [if_pos hl1va]
      rw [huva]
      by_cases hp0 : pte = 0
      · rw [if_pos hp0]
        exact ⟨(s, -1), rfl⟩
      · rw [if_neg hp0]
        by_cases hap : pte &&& PTX_ATRB_AP PTX_ATRB_UAP = 0
        · rw [if_pos hap]
          exact ⟨(s, -1), rfl⟩
        · rw [if_neg hap]
          have hdown : PG_ROUND_DOWN va = va / 2 ^ 12 * 2 ^ 12 := PG_ROUND_DOWN_eq va hva32
          have hpa : p2v (PTE_ADDR pte) ≠ 0 := by
            unfold p2v KERNBASE
            omega
          obtain ⟨r, hr⟩ := ih
            (memwrite s (v2p (p2v (PTE_ADDR pte))) (va - PG_ROUND_DOWN va) buf bufOff
              (min (PGSIZE - (va - PG_ROUND_DOWN va)) len))
            (PG_ROUND_DOWN va + PGSIZE) (bufOff + min (PGSIZE - (va - PG_ROUND_DOWN va)) len)
            (len - min (PGSIZE - (va - PG_ROUND_DOWN va)) len)
            (by unfold PGSIZE at *; omega)
            (by unfold PGSIZE at *; omega)
            (by
              intro k hk
              have harith : PG_ROUND_DOWN va + PGSIZE + k =
                  va + (min (PGSIZE - (va - PG_ROUND_DOWN va)) len + k) := by
                unfold PGSIZE at *
                omega
              rw [harith]
              apply hl1
              unfold PGSIZE at *
              omega)
          refine ⟨r, ?_⟩
          show (if p2v (PTE_ADDR pte) = 0 then Res.ok (s, -1)
            else copyoutLoop
              (memwrite s (v2p (p2v (PTE_ADDR pte))) (va - PG_ROUND_DOWN va) buf bufOff
                (min (PGSIZE - (va - PG_ROUND_DOWN va)) len))
              (PG_ROUND_DOWN va + PGSIZE) buf
              (bufOff + min (PGSIZE - (va - PG_ROUND_DOWN va)) len)
              (len - min (PGSIZE - (va - PG_ROUND_DOWN va)) len) fuel) = Res.ok r
          rw [if_neg hpa]
          exact hr
    · have hlen0 : ¬ (len > 0) := hlen
      simp only [copyoutLoop, if_neg hlen0]
      exact ⟨(s, 0), rfl⟩

/-- C10 — `uva2ka` returns 0 (failure) exactly when the L1 entry
covering `uva` is present but the L2 entry is zero or lacks the user
access-permission bits; when the L1 entry is absent, `walkpgdir`
returns null and `uva2ka` dereferences it before any check (modelled
as the crash outcome), so `uva2ka` — and `copyout`, which calls it for
every page it touches — carries the unstated precondition that every
queried user virtual address lies under a present L1 entry: `copyout`
crashes the same way when the first page's L1 entry is absent, and
completes normally (0 or −1) whenever every byte of the range lies
under a present L1 entry. -/
theorem C10_uva2ka_null_walk_precondition :
    (∀ (s : VM) (uva : Nat), s.l1 (PDX uva) = 0 →
        uva2ka s uva = .panicked "uva2ka: null pte dereferenced") ∧
    (∀ (s : VM) (uva : Nat), s.l1 (PDX uva) ≠ 0 →
        (uva2ka s uva = .ok 0 ↔
          (s.l2 (PTE_ADDR (s.l1 (PDX uva))) (PTX uva) = 0 ∨
           s.l2 (PTE_ADDR (s.l1 (PDX uva))) (PTX uva) &&& PTX_ATRB_AP PTX_ATRB_UAP = 0))) ∧
    (∀ (s : VM) (va : Nat) (buf : Nat → Nat) (len : Nat), 0 < len → va < 2 ^ 32 →
        s.l1 (PDX va) = 0 →
        copyout s va buf len = .panicked "uva2ka: null pte dereferenced") ∧
    (∀ (s : VM) (va : Nat) (buf : Nat → Nat) (len : Nat), va + len ≤ 2 ^ 32 →
        (∀ k, k < len → s.l1 (PDX (va + k)) ≠ 0) →
        ∃ r, copyout s va buf len = .ok r) := by
  have habsent : ∀ (s : VM) (uva : Nat), s.l1 (PDX uva) = 0 →
      uva2ka s uva = .panicked "uva2ka: null pte dereferenced" := by
    intro s uva h
    unfold uva2ka walkpgdir
    rw [if_neg (by simp [h])]
    rfl
  refine ⟨habsent, ?_, ?_, ?_⟩
  · intro s uva h
    unfold uva2ka walkpgdir
    rw [if_pos h]
    set pte := s.l2 (PTE_ADDR (s.l1 (PDX uva))) (PTX uva) with hpte
    show ((if pte = 0 then Res.ok 0
      else if pte &&& PTX_ATRB_AP PTX_ATRB_UAP = 0 then Res.ok 0
      else Res.ok (p2v (PTE_ADDR pte))) = Res.ok 0) ↔
      (pte = 0 ∨ pte &&& PTX_ATRB_AP PTX_ATRB_UAP = 0)
    by_cases hp0 : pte = 0
    · rw [if_pos hp0]
      simp [hp0]
    · rw [if_neg hp0]
      by_cases hap : pte &&& PTX_ATRB_AP PTX_ATRB_UAP = 0
      · rw [if_pos hap]
        simp [hap]
      · rw [if_neg hap]
        constructor
        · intro hok
          exfalso
          have hz : p2v (PTE_ADDR pte) = 0 := by
            simpa using hok
          unfold p2v KERNBASE at hz
          omega
        · intro hor
          rcases hor with h1 | h2
          · exact absurd h1 hp0
          · exact absurd h2 hap
  · intro s va buf len hlen hva h
    unfold copyout
    have hfuel : len + 1 = (len - 1) + 1 + 1 := by omega
    rw [hfuel]
    simp only [copyoutLoop, if_pos hlen]
    rw [habsent s (PG_ROUND_DOWN va) (by rw [PDX_pg_round_down va hva]; exact h)]
  · intro s va buf len hbound hl1
    exact copyoutLoop_ok buf (len + 1) s va 0 len (by omega) hbound hl1

/-- Witness for C10: on the concrete directory `vmSkipBug`, `uva2ka`
crashes at va 0 (absent L1 entry), fails with 0 at the mapped-table
hole va `0x101000`, succeeds at the mapped va `0x100000`, `copyout` of
one byte to va 0 crashes, and `copyout` of one byte to va `0x100000`
completes. -/
theorem C10_uva2ka_null_walk_precondition_witness :
    uva2ka vmSkipBug 0 = .panicked "uva2ka: null pte dereferenced" ∧
    (uva2ka vmSkipBug 0x101000 = .ok 0 ↔
      (vmSkipBug.l2 (PTE_ADDR (vmSkipBug.l1 (PDX 0x101000))) (PTX 0x101000) = 0 ∨
       vmSkipBug.l2 (PTE_ADDR (vmSkipBug.l1 (PDX 0x101000))) (PTX 0x101000) &&&
         PTX_ATRB_AP PTX_ATRB_UAP = 0)) ∧
    copyout vmSkipBug 0 (fun _ => 0) 1 = .panicked "uva2ka: null pte dereferenced" ∧
    (∃ r, copyout vmSkipBug 0x100000 (fun _ => 0) 1 = .ok r) := by
  refine ⟨?_, ?_, ?_, ?_⟩
  · exact C10_uva2ka_null_walk_precondition.1 vmSkipBug 0 (by decide)
  · exact C10_uva2ka_null_walk_precondition.2.1 vmSkipBug 0x101000 (by decide)
  · exact C10_uva2ka_null_walk_precondition.2.2.1 vmSkipBug 0 (fun _ => 0) 1
      (by decide) (by decide) (by decide)
  · exact C10_uva2ka_null_walk_precondition.2.2.2 vmSkipBug 0x100000 (fun _ => 0) 1
      (by decide) (by intro k hk; interval_cases k; decide)

/-- C6 — a successful `fork()`: with a live current process `cp` at
slot `c` (trapframe `ptf`), a free table slot (`allocproc` finds the
unused `np` at slot `i`) and at least two free pages (kernel stack
`k`, then the page directory `d` that the spec-modelled `copyuvm`
takes), `fork` returns the child's PID to the parent; the child's
trapframe is the parent's with `r0 = 0`, its `sz` equals the parent's,
its `parent` points at the caller, every open file of the parent is
passed through `filedup` (same handle in the same slot, logged in
`fileDups`), the cwd through `idup`, and the child is `RUNNABLE` —
with the parent's own PCB untouched. -/
theorem C6_fork (s : KState) (c i : Nat) (cp np : PCB) (ptf : TF) (k d : Nat)
    (rest : List Nat)
    (hc : s.curr = some c)
    (hcp : s.procs[c]? = some cp)
    (hcs : cp.state ≠ PState.unused)
    (htf : cp.tf = some ptf)
    (hidx : s.procs.findIdx? (fun p => decide (p.state = PState.unused)) = some i)
    (hip : s.procs[i]? = some np)
    (hnpu : np.state = PState.unused)
    (hlen : np.ofile.length = cp.ofile.length)
    (hfree : s.pageFree = k :: d :: rest) :
    ∃ s' child,
      fork s = .ok (s', (child.pid : Int)) ∧
      s'.procs[i]? = some child ∧
      child.pid = s.nextPid ∧
      child.tf = some { ptf with r0 := 0 } ∧
      child.sz = cp.sz ∧
      child.parent = some c ∧
      child.state = PState.runnable ∧
      child.cwd = cp.cwd ∧
      (∀ (j : Nat) (f : Nat), cp.ofile[j]? = some f → f ≠ 0 → child.ofile[j]? = some f) ∧
      s'.fileDups = s.fileDups ++ cp.ofile.filter (fun f => f ≠ 0) ∧
      s'.inodeDups = s.inodeDups ++ [cp.cwd] ∧
      s'.procs[c]? = some cp := by
  have hilen : i < s.procs.length := by
    by_contra hni
    rw [List.getElem?_eq_none (by omega)] at hip
    cases hip
  have hci : c ≠ i := by
    intro he
    rw [he, hip] at hcp
    cases hcp
    exact hcs hnpu
  set np1 : PCB :=
    { np with state := PState.embryo, pid := s.nextPid, kstack := k, tf := some tfZero }
    with hnp1
  have halloc : allocproc s = (some i,
      { s with procs := s.procs.set i np1, nextPid := s.nextPid + 1,
               pageFree := d :: rest }) := by
    unfold allocproc spawnProc
    rw [hidx]
    simp only [hip, hfree, List.set_set]
  set npF : PCB :=
    { np with
        state := PState.runnable
        pid := s.nextPid
        kstack := k
        pgdir := d
        sz := cp.sz
        parent := some c
        tf := some { ptf with r0 := 0 }
        ofile := List.zipWith (fun pf cf => if pf ≠ 0 then pf else cf) cp.ofile np.ofile
        cwd := cp.cwd
        name := cp.name }
    with hnpF
  set sF : KState :=
    { s with
        procs := s.procs.set i npF
        nextPid := s.nextPid + 1
        pageFree := rest
        fileDups := s.fileDups ++ cp.ofile.filter (fun f => f ≠ 0)
        inodeDups := s.inodeDups ++ [cp.cwd] }
    with hsF
  have hset_len : (s.procs.set i np1).length = s.procs.length := by
    simp
  have hgi : (s.procs.set i np1)[i]? = some np1 :=
    List.getElem?_set_eq (by omega)
  have hgc : (s.procs.set i np1)[c]? = some cp := by
    rw [List.getElem?_set_ne (by omega)]
    exact hcp
  have hfork : fork s = .ok (sF, ((s.nextPid : Nat) : Int)) := by
    unfold fork
    rw [hc, halloc]
    simp only [hgi, hgc, htf, Option.map_some, List.set_set]
    rfl
  refine ⟨sF, npF, ?_, ?_, rfl, rfl, rfl, rfl, rfl, rfl, ?_, rfl, rfl, ?_⟩
  · exact hfork
  · rw [hsF]
    simp only []
    exact List.getElem?_set_eq (by omega)
  · intro j f hj hf
    have hjlt : j < cp.ofile.length := by
      by_contra hn
      rw [List.getElem?_eq_none (by omega)] at hj
      cases hj
    have hjnp : j < np.ofile.length := by omega
    rw [hnpF]
    simp only []
    rw [List.getElem?_zipWith_eq_some]
    refine ⟨f, np.ofile[j], hj, List.getElem?_eq_getElem hjnp, ?_⟩
    rw [if_pos hf]
  · rw [hsF]
    simp only []
    rw [List.getElem?_set_ne (by omega)]
    exact hcp

/-- Witness for C6: forking the concrete parent `pcbParent` in
`ksFork` succeeds with all the claimed properties of the child. -/
theorem C6_fork_witness :
    ∃ s' child,
      fork ksFork = .ok (s', (child.pid : Int)) ∧
      s'.procs[1]? = some child ∧
      child.pid = ksFork.nextPid ∧
      child.tf = some { tfParent with r0 := 0 } ∧
      child.sz = pcbParent.sz ∧
      child.parent = some 0 ∧
      child.state = PState.runnable ∧
      child.cwd = pcbParent.cwd ∧
      (∀ (j : Nat) (f : Nat), pcbParent.ofile[j]? = some f → f ≠ 0 →
        child.ofile[j]? = some f) ∧
      s'.fileDups = ksFork.fileDups ++ pcbParent.ofile.filter (fun f => f ≠ 0) ∧
      s'.inodeDups = ksFork.inodeDups ++ [pcbParent.cwd] ∧
      s'.procs[0]? = some pcbParent :=
  C6_fork ksFork 0 1 pcbParent pcbZero tfParent 0x80003000 0x80004000 []
    rfl (by decide) (by decide) (by decide) (by decide) (by decide) (by decide)
    (by decide) rfl

theorem pok_zero : POk pcbZero := by
  constructor
  · intro _
    rfl
  · intro h
    exact absurd rfl h

theorem pok_set {l : List PCB} {i : Nat} {v : PCB}
    (hall : ∀ p ∈ l, POk p) (hv : POk v) : ∀ p ∈ l.set i v, POk p := by
  intro p hp
  rcases List.mem_or_eq_of_mem_set hp with h | h
  · exact hall p h
  · rw [h]
    exact hv

theorem pok_map {l : List PCB} {f : PCB → PCB}
    (hall : ∀ p ∈ l, POk p) (hf : ∀ p, POk p → POk (f p)) :
    ∀ p ∈ l.map f, POk p := by
  intro p hp
  rcases List.mem_map.mp hp with ⟨q, hq, rfl⟩
  exact hf q (hall q hq)

/-- Waking a sleeper preserves `POk`. -/
theorem pok_wake (ch : Chan) (p : PCB) (h : POk p) :
    POk (if p.state = PState.sleeping ∧ p.channel = ch then
          { p with state := PState.runnable } else p) := by
  by_cases hc : p.state = PState.sleeping ∧ p.channel = ch
  · rw [if_pos hc]
    obtain ⟨hks, hpid⟩ := h.2 (by rw [hc.1]; intro hcon; cases hcon)
    refine ⟨fun hcon => ?_, fun _ => ⟨hks, hpid⟩⟩
    cases hcon
  · rw [if_neg hc]
    exact h

theorem pok_killScan (pid : Nat) :
    ∀ (l l' : List PCB), (∀ p ∈ l, POk p) → killScan pid l = some l' →
      ∀ q ∈ l', POk q := by
  intro l
  induction l with
  | nil =>
    intro l' _ h
    cases h
  | cons p ps ih =>
    intro l' hall h
    unfold killScan at h
    by_cases hp : p.pid = pid
    · rw [if_pos hp] at h
      cases h
      intro q hq
      rcases List.mem_cons.mp hq with h | h
      · subst h
        have hpk := hall p (List.mem_cons_self p ps)
        by_cases hu : p.state = PState.unused
        · refine ⟨fun _ => ?_, fun hnu => ?_⟩
          · exact hpk.1 hu
          · exfalso
            apply hnu
            show (if p.state = PState.sleeping then PState.runnable else p.state) =
              PState.unused
            rw [if_neg (by rw [hu]; intro hcon; cases hcon)]
            exact hu
        · obtain ⟨hks, hpid2⟩ := hpk.2 hu
          refine ⟨fun hcon => ?_, fun _ => ⟨hks, hpid2⟩⟩
          exfalso
          by_cases hs : p.state = PState.sleeping
          · simp only [if_pos hs] at hcon
            cases hcon
          · simp only [if_neg hs] at hcon
            exact hu hcon
      · exact hall q (List.mem_cons_of_mem p h)
    · rw [if_neg hp] at h
      cases hscan : killScan pid ps with
      | none =>
        rw [hscan] at h
        cases h
      | some ps1 =>
        rw [hscan] at h
        cases h
        intro q hq
        rcases List.mem_cons.mp hq with h | h
        · subst h
          exact hall q (List.mem_cons_self q ps)
        · exact ih ps1 (fun r hr => hall r (List.mem_cons_of_mem p hr)) hscan q h

/-- Inversion of a successful `allocproc`: the spawned slot and the
resulting state, explicitly. -/
theorem allocproc_some (s : KState) (i : Nat) (s1 : KState)
    (h : allocproc s = (some i, s1)) :
    ∃ np k rest,
      s.procs.findIdx? (fun p => decide (p.state = PState.unused)) = some i ∧
      s.procs[i]? = some np ∧ s.pageFree = k :: rest ∧
      s1 = { s with
              procs := s.procs.set i
                { np with
                    state := PState.embryo
                    pid := s.nextPid
                    kstack := k
                    tf := some tfZero }
              nextPid := s.nextPid + 1
              pageFree := rest } := by
  unfold allocproc spawnProc at h
  split at h
  · cases h
  · rename_i i0 hidx
    split at h
    · cases h
    · rename_i np hip
      cases hfe : s.pageFree with
      | nil =>
        simp only [hfe] at h
        cases h
      | cons k rest =>
        simp only [hfe] at h
        rw [List.set_set] at h
        cases h
        exact ⟨np, k, rest, hidx, hip, rfl, rfl⟩

/-- `allocproc` preserves the table invariant (both on failure paths
and on success). -/
theorem kinv_allocproc (s : KState) (h : KInv s) : KInv (allocproc s).2 := by
  obtain ⟨hpid, hfree, hall⟩ := h
  unfold allocproc spawnProc
  split
  · exact ⟨hpid, hfree, hall⟩
  · rename_i i hidx
    split
    · exact ⟨hpid, hfree, hall⟩
    · rename_i np hip
      cases hfe : s.pageFree with
      | nil =>
        simp only [hfe]
        refine ⟨by show 1 ≤ s.nextPid + 1; omega, ?_, ?_⟩
        · intro m hm
          simp at hm
        · simp only [List.set_set]
          apply pok_set hall
          exact ⟨fun _ => rfl, fun hcon => absurd rfl hcon⟩
      | cons k rest =>
        simp only [hfe]
        refine ⟨by show 1 ≤ s.nextPid + 1; omega, ?_, ?_⟩
        · intro m hm
          exact hfree m (by rw [hfe]; exact List.mem_cons_of_mem k hm)
        · simp only [List.set_set]
          apply pok_set hall
          have hk : k ≠ 0 := hfree k (by rw [hfe]; exact List.mem_cons_self k rest)
          refine ⟨fun hcon => ?_, fun _ => ⟨hk, by show s.nextPid ≠ 0; omega⟩⟩
          cases hcon

theorem kinv_wakeup1 (s : KState) (ch : Chan) (h : KInv s) : KInv (wakeup1 s ch) := by
  obtain ⟨hpid, hfree, hall⟩ := h
  refine ⟨hpid, hfree, ?_⟩
  unfold wakeup1
  exact pok_map hall (pok_wake ch)

theorem wakeup1_getElem (t : KState) (ch : Chan) (c : Nat) :
    (wakeup1 t ch).procs[c]? = (t.procs[c]?).map
      (fun q => if q.state = PState.sleeping ∧ q.channel = ch then
        { q with state := PState.runnable } else q) := by
  unfold wakeup1
  simp [List.getElem?_map]

/-- `exit()` preserves the table invariant: the caller goes from
`RUNNING` to `ZOMBIE` (keeping its stack and pid), file/cwd clearing
and re-parenting do not touch the invariant fields, and wakeups only
lift sleepers to `RUNNABLE`. -/
theorem kinv_exit (s s' : KState) (c : Nat) (p : PCB)
    (hc : s.curr = some c) (hp : s.procs[c]? = some p)
    (hrun : p.state = PState.running)
    (hexit : exitProc s = .ok s') (h : KInv s) : KInv s' := by
  obtain ⟨hpid, hfree, hall⟩ := h
  unfold exitProc at hexit
  split at hexit
  · rename_i hcv
    rw [hc] at hcv
    cases hcv
  · rename_i c0 hcv
    rw [hc] at hcv
    cases hcv
    split at hexit
    · rename_i hpv
      rw [hp] at hpv
      cases hpv
    · rename_i p0 hpv
      rw [hp] at hpv
      cases hpv
      by_cases hinit : s.initIdx = some c
      · rw [if_pos hinit] at hexit
        cases hexit
      · rw [if_neg hinit] at hexit
        dsimp only [] at hexit
        have hclen : c < s.procs.length := by
          by_contra hn
          rw [List.getElem?_eq_none (by omega)] at hp
          cases hp
        set pA : PCB := { p with ofile := p.ofile.map (fun _ => 0), cwd := 0 } with hpA
        set s1 : KState :=
          { s with
              fileCloses := s.fileCloses ++ p.ofile.filter (fun f => f ≠ 0)
              inodePuts := s.inodePuts ++ [p.cwd]
              procs := s.procs.set c pA } with hs1
        have h1 : KInv s1 := by
          refine ⟨hpid, hfree, ?_⟩
          apply pok_set hall
          have := hall p (List.getElem?_mem hp)
          exact this
        have h1c : s1.procs[c]? = some pA := by
          rw [hs1]
          simp only []
          exact List.getElem?_set_eq (by simpa using hclen)
        set parentChan : Chan :=
          (match p.parent with
            | some pi => Chan.cproc pi
            | none => Chan.cnull) with hpc
        set s2 : KState := wakeup1 s1 parentChan with hs2
        have h2 : KInv s2 := kinv_wakeup1 s1 parentChan h1
        have h2c : s2.procs[c]? = some pA := by
          rw [hs2, wakeup1_getElem, h1c]
          simp only [Option.map_some']
          rw [if_neg]
          intro hcon
          have hps : p.state = PState.sleeping := hcon.1
          rw [hrun] at hps
          cases hps
        set rp : PCB → PCB :=
          (fun q => if q.parent = some c then { q with parent := s.initIdx } else q) with hrp
        set s3 : KState := { s2 with procs := s2.procs.map rp } with hs3
        have h3 : KInv s3 := by
          obtain ⟨h2a, h2b, h2all⟩ := h2
          refine ⟨h2a, h2b, ?_⟩
          apply pok_map h2all
          intro q hq
          simp only [hrp]
          by_cases hqq : q.parent = some c
          · rw [if_pos hqq]
            exact hq
          · rw [if_neg hqq]
            exact hq
        set pB : PCB := rp pA with hpB
        have h3c : s3.procs[c]? = some pB := by
          rw [hs3]
          simp only [List.getElem?_map, h2c, Option.map_some', ← hpB]
        have hpBst : pB.state = PState.running ∧ pB.kstack = p.kstack ∧ pB.pid = p.pid := by
          simp only [hpB, hrp]
          by_cases hqq : pA.parent = some c
          · rw [if_pos hqq]
            exact ⟨hrun, rfl, rfl⟩
          · rw [if_neg hqq]
            exact ⟨hrun, rfl, rfl⟩
        set initChan : Chan :=
          (match s.initIdx with
            | some ii => Chan.cproc ii
            | none => Chan.cnull) with hic
        set anyZ := s2.procs.any (fun q => decide (q.parent = some c ∧ q.state = PState.zombie))
          with hanyZ
        set s4 : KState := if anyZ then wakeup1 s3 initChan else s3 with hs4
        have h4 : KInv s4 := by
          rw [hs4]
          by_cases hz : anyZ
          · rw [if_pos hz]
            exact kinv_wakeup1 s3 initChan h3
          · rw [if_neg hz]
            exact h3
        have h4c : s4.procs[c]? = some pB := by
          rw [hs4]
          by_cases hz : anyZ
          · rw [if_pos hz, wakeup1_getElem, h3c]
            simp only [Option.map_some']
            rw [if_neg]
            intro hcon
            have hps : pB.state = PState.sleeping := hcon.1
            rw [hpBst.1] at hps
            cases hps
          · rw [if_neg hz]
            exact h3c
        rw [h4c] at hexit
        cases hexit
        obtain ⟨h4a, h4b, h4all⟩ := h4
        refine ⟨h4a, h4b, ?_⟩
        apply pok_set h4all
        have hpok := hall p (List.getElem?_mem hp)
        obtain ⟨hks, hpd⟩ := hpok.2 (by rw [hrun]; intro hcon; cases hcon)
        refine ⟨fun hcon => ?_, fun _ => ?_⟩
        · cases hcon
        constructor
        · show pB.kstack ≠ 0
          rw [hpBst.2.1]
          exact hks
        · show pB.pid ≠ 0
          rw [hpBst.2.2]
          exact hpd

/-- `fork` preserves the table invariant on all three of its paths. -/
theorem kinv_fork (s s' : KState) (r : Int)
    (hfork : fork s = .ok (s', r)) (h : KInv s) : KInv s' := by
  unfold fork at hfork
  split at hfork
  · cases hfork
  · rename_i c hc
    cases halloc : allocproc s with
    | mk oi s1 =>
      rw [halloc] at hfork
      have h1 : KInv s1 := by
        have := kinv_allocproc s h
        rw [halloc] at this
        exact this
      cases oi with
      | none =>
        cases hfork
        exact h1
      | some i =>
        obtain ⟨np0, k, rest0, hidx, hip0, hfree0, hs1⟩ := allocproc_some s i s1 halloc
        have hilen : i < s.procs.length := by
          by_contra hn
          rw [List.getElem?_eq_none (by omega)] at hip0
          cases hip0
        set np1 : PCB :=
          { np0 with
              state := PState.embryo
              pid := s.nextPid
              kstack := k
              tf := some tfZero } with hnp1
        have hgi : s1.procs[i]? = some np1 := by
          rw [hs1]
          simp only []
          exact List.getElem?_set_eq (by simpa using hilen)
        dsimp only [] at hfork
        rw [hgi] at hfork
        cases hcp : s1.procs[c]? with
        | none =>
          rw [hcp] at hfork
          cases hfork
        | some cp =>
          rw [hcp] at hfork
          obtain ⟨h1a, h1b, h1all⟩ := h1
          cases hfree1 : s1.pageFree with
          | nil =>
            rw [hfree1] at hfork
            cases hfork
            refine ⟨h1a, fun m hm => ?_, ?_⟩
            · simp at hm
            · apply pok_set h1all
              exact ⟨fun _ => rfl, fun hcon => absurd rfl hcon⟩
          | cons d rest =>
            rw [hfree1] at hfork
            cases hfork
            refine ⟨h1a, ?_, ?_⟩
            · intro m hm
              exact h1b m (by rw [hfree1]; exact List.mem_cons_of_mem d hm)
            · apply pok_set h1all
              have hknz : np1.kstack ≠ 0 := by
                have hpok := h1all np1 (List.getElem?_mem hgi)
                exact (hpok.2 (by rw [hnp1]; intro hcon; cases hcon)).1
              have hpnz : np1.pid ≠ 0 := by
                have hpok := h1all np1 (List.getElem?_mem hgi)
                exact (hpok.2 (by rw [hnp1]; intro hcon; cases hcon)).2
              refine ⟨fun hcon => ?_, fun _ => ⟨hknz, hpnz⟩⟩
              cases hcon

/-- `userinit` preserves the table invariant. -/
theorem kinv_userinit (s s' : KState)
    (h : userinit s = .ok s') (hI : KInv s) : KInv s' := by
  unfold userinit at h
  cases halloc : allocproc s with
  | mk oi s1 =>
    rw [halloc] at h
    have h1 : KInv s1 := by
      have := kinv_allocproc s hI
      rw [halloc] at this
      exact this
    cases oi with
    | none => cases h
    | some i =>
      obtain ⟨np0, k, rest0, hidx, hip0, hfree0, hs1⟩ := allocproc_some s i s1 halloc
      have hilen : i < s.procs.length := by
        by_contra hn
        rw [List.getElem?_eq_none (by omega)] at hip0
        cases hip0
      simp only [] at h
      cases hfree1 : ({ s1 with initIdx := some i } : KState).pageFree with
      | nil =>
        rw [hfree1] at h
        cases h
      | cons d rest =>
        rw [hfree1] at h
        cases rest with
        | nil => cases h
        | cons m2 rest2 =>
          set np1 : PCB :=
            { np0 with
                state := PState.embryo
                pid := s.nextPid
                kstack := k
                tf := some tfZero } with hnp1
          have hgi : ({ s1 with initIdx := some i } : KState).procs[i]? = some np1 := by
            simp only [hs1]
            exact List.getElem?_set_eq (by simpa using hilen)
          rw [hgi] at h
          cases h
          obtain ⟨h1a, h1b, h1all⟩ := h1
          refine ⟨h1a, ?_, ?_⟩
          · intro m hm
            apply h1b m
            show m ∈ s1.pageFree
            have : s1.pageFree = d :: m2 :: rest2 := hfree1
            rw [this]
            exact List.mem_cons_of_mem d (List.mem_cons_of_mem m2 hm)
          · apply pok_set h1all
            have hpok := h1all np1 (List.getElem?_mem (by simpa using hgi))
            have hknz := (hpok.2 (by rw [hnp1]; intro hcon; cases hcon)).1
            have hpnz := (hpok.2 (by rw [hnp1]; intro hcon; cases hcon)).2
            refine ⟨fun hcon => ?_, fun _ => ⟨hknz, hpnz⟩⟩
            cases hcon

/-- One `wait()` iteration preserves the table invariant. -/
theorem kinv_wait (s s' : KState) (c : Nat) (p : PCB) (r : Option Int)
    (hc : s.curr = some c) (hp : s.procs[c]? = some p)
    (hrun : p.state = PState.running)
    (hw : waitOnce s = .ok (s', r)) (h : KInv s) : KInv s' := by
  obtain ⟨ha, hb, hall⟩ := h
  unfold waitOnce at hw
  split at hw
  · rename_i hcv
    rw [hc] at hcv
    cases hcv
  · rename_i c0 hcv
    rw [hc] at hcv
    cases hcv
    split at hw
    · rename_i hpv
      rw [hp] at hpv
      cases hpv
    · rename_i p0 hpv
      rw [hp] at hpv
      cases hpv
      dsimp only [] at hw
      split at hw
      · rename_i j hj
        split at hw
        · cases hw
        · rename_i pj hpj
          split at hw
          · cases hw
          · cases hw
            refine ⟨ha, hb, ?_⟩
            apply pok_set hall
            exact ⟨fun _ => rfl, fun hcon => absurd rfl hcon⟩
      · split at hw
        · cases hw
          exact ⟨ha, hb, hall⟩
        · cases hw
          refine ⟨ha, hb, ?_⟩
          apply pok_set hall
          have hpok := hall p (List.getElem?_mem hp)
          obtain ⟨hks, hpd⟩ := hpok.2 (by rw [hrun]; intro hcon; cases hcon)
          refine ⟨fun hcon => ?_, fun _ => ⟨hks, hpd⟩⟩
          cases hcon

/-- `kill` preserves the table invariant. -/
theorem kinv_kill (s : KState) (pid : Nat) (h : KInv s) : KInv (kill s pid).1 := by
  obtain ⟨ha, hb, hall⟩ := h
  unfold kill
  cases hscan : killScan pid s.procs with
  | none => exact ⟨ha, hb, hall⟩
  | some ps => exact ⟨ha, hb, pok_killScan pid s.procs ps hall hscan⟩

/-- The one-slot state updates used by `yield`, `sleep`, the
post-sleep cleanup and scheduler dispatch preserve the invariant,
provided the touched slot is live and is not being marked `UNUSED`. -/
theorem kinv_setPState (s : KState) (c : Nat) (p : PCB) (st : PState)
    (hp : s.procs[c]? = some p) (hpl : p.state ≠ PState.unused)
    (hst : st ≠ PState.unused) (h : KInv s) : KInv (setPState s c st) := by
  obtain ⟨ha, hb, hall⟩ := h
  unfold setPState
  rw [hp]
  refine ⟨ha, hb, ?_⟩
  apply pok_set hall
  obtain ⟨hks, hpd⟩ := (hall p (List.getElem?_mem hp)).2 hpl
  exact ⟨fun hcon => absurd hcon hst, fun _ => ⟨hks, hpd⟩⟩

theorem kinv_sleepSet (s : KState) (c : Nat) (p : PCB) (ch : Chan)
    (hp : s.procs[c]? = some p) (hpl : p.state ≠ PState.unused)
    (h : KInv s) : KInv (sleepSet s c ch) := by
  obtain ⟨ha, hb, hall⟩ := h
  unfold sleepSet
  rw [hp]
  refine ⟨ha, hb, ?_⟩
  apply pok_set hall
  obtain ⟨hks, hpd⟩ := (hall p (List.getElem?_mem hp)).2 hpl
  refine ⟨fun hcon => ?_, fun _ => ⟨hks, hpd⟩⟩
  cases hcon

theorem kinv_chanClear (s : KState) (c : Nat) (h : KInv s) : KInv (chanClear s c) := by
  obtain ⟨ha, hb, hall⟩ := h
  unfold chanClear
  cases hp : s.procs[c]? with
  | none => exact ⟨ha, hb, hall⟩
  | some p =>
    refine ⟨ha, hb, ?_⟩
    apply pok_set hall
    exact hall p (List.getElem?_mem hp)

theorem kinv_schedTo (s : KState) (i : Nat) (p : PCB)
    (hp : s.procs[i]? = some p) (hpr : p.state = PState.runnable)
    (h : KInv s) : KInv (schedTo s i) := by
  obtain ⟨ha, hb, hall⟩ := h
  unfold schedTo
  rw [hp]
  refine ⟨ha, hb, ?_⟩
  apply pok_set hall
  obtain ⟨hks, hpd⟩ := (hall p (List.getElem?_mem hp)).2 (by rw [hpr]; intro hcon; cases hcon)
  refine ⟨fun hcon => ?_, fun _ => ⟨hks, hpd⟩⟩
  cases hcon

/-- Every transition of the process subsystem preserves the table
invariant. -/
theorem kinv_step (s s' : KState) (hstep : Step s s') (h : KInv s) : KInv s' := by
  cases hstep with
  | alloc => exact kinv_allocproc s h
  | uinit _ hu => exact kinv_userinit s _ hu h
  | dofork _ c p r hc hp hrun hf => exact kinv_fork s _ r hf h
  | doexit _ c p hc hp hrun he => exact kinv_exit s _ c p hc hp hrun he h
  | dowait _ c p r hc hp hrun hw => exact kinv_wait s _ c p r hc hp hrun hw h
  | dokill pid => exact kinv_kill s pid h
  | doyield c p hc hp hrun =>
    exact kinv_setPState s c p PState.runnable hp
      (by rw [hrun]; intro hcon; cases hcon) (by intro hcon; cases hcon) h
  | dosleep c p ch hc hp hrun =>
    exact kinv_sleepSet s c p ch hp (by rw [hrun]; intro hcon; cases hcon) h
  | doclearchan c p hc hp hrun => exact kinv_chanClear s c h
  | dowake ch => exact kinv_wakeup1 s ch h
  | dispatch i p hp hpr => exact kinv_schedTo s i p hp hpr h
  | parkCpu => exact ⟨h.1, h.2.1, h.2.2⟩

/-- The invariant holds at boot (for any supply of non-null pages). -/
theorem kinv_init (free : List Nat) (hfree : ∀ m ∈ free, m ≠ 0) :
    KInv (initKState free) := by
  refine ⟨by norm_num [initKState], hfree, ?_⟩
  intro p hp
  have : p = pcbZero := List.eq_of_mem_replicate hp
  rw [this]
  exact pok_zero

/-- The invariant holds in every reachable state. -/
theorem kinv_reachable (s : KState) (h : ReachableK s) : KInv s := by
  obtain ⟨free, hfree, hsteps⟩ := h
  induction hsteps with
  | refl => exact kinv_init free hfree
  | tail hab hbc ih => exact kinv_step _ _ hbc ih

/-- C3 (counterexample) — the claimed invariant
"state = UNUSED ⇔ (pid = 0 ∧ kstack = null ∧ pgdir = null)" fails on a
reachable state: from the freshly initialised table with an empty page
free list, one `allocproc` call finds slot 0 `UNUSED`, assigns
`pid = next_pid++ = 1`, then fails to allocate the kernel stack and
sets the slot's state back to `UNUSED` — leaving `pid = 1` behind
(spawn_proc's failure path clears neither `pid` nor anything else).
The slot is `UNUSED` with a non-zero pid, refuting the ⇒ direction. -/
theorem C3_counterexample :
    ¬ (∀ s : KState, ReachableK s → ∀ p ∈ s.procs,
        (p.state = PState.unused ↔ (p.pid = 0 ∧ p.kstack = 0 ∧ p.pgdir = 0))) := by
  intro hcl
  have hreach : ReachableK (allocproc (initKState [])).2 :=
    ⟨[], fun m hm => absurd hm (List.not_mem_nil m),
      Relation.ReflTransGen.single (Step.alloc (initKState []))⟩
  have hmem : ({ pcbZero with pid := 1 } : PCB) ∈ (allocproc (initKState [])).2.procs := by
    decide
  have h2 := (hcl _ hreach _ hmem).mp (by decide)
  exact absurd h2.1 (by decide)

/-- C3 (amended) — in every reachable state of the process table:
`p.state = UNUSED ⇔ p.kstack = null`, and the ⇐ direction of the
original claim holds (`pid = 0 ∧ kstack = null ∧ pgdir = null ⇒
UNUSED`).  The original ⇒ direction fails only in its `pid` clause
(spawn_proc's and fork's failure paths leave `pid` set, see
`C3_counterexample`) and its `pgdir` clause (`wait`'s reap path frees
but does not clear `p->pgdir`). -/
theorem C3_unused_inv (s : KState) (h : ReachableK s) :
    ∀ p ∈ s.procs,
      (p.state = PState.unused ↔ p.kstack = 0) ∧
      ((p.pid = 0 ∧ p.kstack = 0 ∧ p.pgdir = 0) → p.state = PState.unused) := by
  intro p hp
  obtain ⟨ha, hb, hall⟩ := kinv_reachable s h
  have hpok := hall p hp
  constructor
  · constructor
    · exact hpok.1
    · intro hks
      by_contra hne
      exact (hpok.2 hne).1 hks
  · intro hand
    by_contra hne
    exact (hpok.2 hne).2 hand.1

/-- Witness for C3: the amended invariant evaluated at the boot state
and its slot 0. -/
theorem C3_unused_inv_witness :
    (pcbZero.state = PState.unused ↔ pcbZero.kstack = 0) ∧
      ((pcbZero.pid = 0 ∧ pcbZero.kstack = 0 ∧ pcbZero.pgdir = 0) →
        pcbZero.state = PState.unused) :=
  C3_unused_inv (initKState [])
    ⟨[], fun m hm => absurd hm (List.not_mem_nil m), Relation.ReflTransGen.refl⟩
    pcbZero (by decide)

/-- C8 — `trap()` on a trap that is neither a syscall nor an IRQ:
panics when no process is current or the trap came from a non-user
mode, and marks the current process killed when it came from user
mode.  After dispatch, a current process that is killed and trapped
from user mode exits; and when a timer interrupt was handled while the
current process is `RUNNING`, `trap` calls `yield` and repeats the
killed-and-user check afterwards (exiting if the flag was set while
yielded). -/
theorem C8_trap (v : TrapView) (fuel : Nat) :
    (v.trapno ≠ T_SYSCALL → v.trapno ≠ T_IRQ →
      (v.currPresent = false ∨ v.spsr &&& 0xF ≠ PSR_USER_MODE) →
      trap v fuel = .panicked "trap") ∧
    (v.trapno ≠ T_SYSCALL → v.trapno ≠ T_IRQ → v.currPresent = true →
      v.spsr &&& 0xF = PSR_USER_MODE →
      ∀ evs, trap v fuel = .ok evs → Ev.markKilled ∈ evs) ∧
    (v.currPresent = true → v.spsr &&& 0xF = PSR_USER_MODE →
      v.trapno ≠ T_SYSCALL → (v.killed0 = true ∨ v.trapno ≠ T_IRQ) →
      ∀ evs, trap v fuel = .ok evs → Ev.exitCall ∈ evs) ∧
    (v.trapno ≠ T_SYSCALL → v.trapno = T_IRQ → v.currPresent = true →
      v.stateRunning = true →
      ∀ evs0, handleIrqLoop v.p0 v.p1 v.pb false [] fuel = some (true, evs0) →
      ¬(v.killed0 = true ∧ v.spsr &&& 0xF = PSR_USER_MODE) →
      ∀ evs, trap v fuel = .ok evs →
        Ev.yieldCall ∈ evs ∧
        (v.killedAfterYield = true → v.spsr &&& 0xF = PSR_USER_MODE →
          Ev.exitCall ∈ evs)) := by
  refine ⟨?_, ?_, ?_, ?_⟩
  · intro hsys hirq hbad
    unfold trap
    rw [if_neg hsys]
    simp only [if_neg hirq]
    rw [if_pos (show ¬v.currPresent = true ∨ v.spsr &&& 0xF ≠ PSR_USER_MODE by
      rcases hbad with h | h
      · left
        rw [h]
        intro hcon
        cases hcon
      · right
        exact h)]
  · intro hsys hirq hcur huser evs htrap
    unfold trap at htrap
    rw [if_neg hsys] at htrap
    simp only [if_neg hirq] at htrap
    rw [if_neg (by push_neg; exact ⟨hcur, huser⟩)] at htrap
    simp only [hcur, if_pos] at htrap
    rw [if_pos ⟨by simp, huser⟩] at htrap
    cases htrap
    exact List.mem_append_left _ (List.mem_singleton.mpr rfl)
  · intro hcur huser hsys hk evs htrap
    unfold trap at htrap
    rw [if_neg hsys] at htrap
    rcases hk with hk0 | hnirq
    · by_cases hirq : v.trapno = T_IRQ
      · simp only [if_pos hirq] at htrap
        cases hloop : handleIrqLoop v.p0 v.p1 v.pb false [] fuel with
        | none =>
          rw [hloop] at htrap
          cases htrap
        | some pr =>
          rw [hloop] at htrap
          simp only [hcur, if_pos] at htrap
          rw [if_pos ⟨by simp [hk0], huser⟩] at htrap
          cases htrap
          exact List.mem_append_right _ (List.mem_singleton.mpr rfl)
      · simp only [if_neg hirq] at htrap
        rw [if_neg (by push_neg; exact ⟨hcur, huser⟩)] at htrap
        simp only [hcur, if_pos] at htrap
        rw [if_pos ⟨by simp, huser⟩] at htrap
        cases htrap
        exact List.mem_append_right _ (List.mem_singleton.mpr rfl)
    · simp only [if_neg hnirq] at htrap
      rw [if_neg (by push_neg; exact ⟨hcur, huser⟩)] at htrap
      simp only [hcur, if_pos] at htrap
      rw [if_pos ⟨by simp, huser⟩] at htrap
      cases htrap
      exact List.mem_append_right _ (List.mem_singleton.mpr rfl)
  · intro hsys hirq hcur hrunning evs0 hloop hnk evs htrap
    unfold trap at htrap
    rw [if_neg hsys] at htrap
    simp only [if_pos hirq] at htrap
    rw [hloop] at htrap
    simp only [hcur, if_pos] at htrap
    have hk1 : ¬((v.killed0 || false) = true ∧ v.spsr &&& 0xF = PSR_USER_MODE) := by
      simpa using hnk
    rw [if_neg hk1] at htrap
    rw [if_pos ⟨hrunning, trivial⟩] at htrap
    by_cases hky : v.killedAfterYield = true ∧ v.spsr &&& 0xF = PSR_USER_MODE
    · rw [if_pos hky] at htrap
      cases htrap
      constructor
      · refine List.mem_append_left _ ?_
        exact List.mem_append_right _ (List.mem_singleton.mpr rfl)
      · intro _ _
        exact List.mem_append_right _ (List.mem_singleton.mpr rfl)
    · rw [if_neg hky] at htrap
      cases htrap
      constructor
      · exact List.mem_append_right _ (List.mem_singleton.mpr rfl)
      · intro h1 h2
        exact absurd ⟨h1, h2⟩ hky

/-- Witness for C8: a timer IRQ from user mode while `RUNNING` makes
`trap` call `yield`, and — the process having been killed while
yielded — `exit` afterwards: the event trace is
`[timerTick, yieldCall, exitCall]`. -/
theorem C8_trap_witness :
    Ev.yieldCall ∈ [Ev.timerTick, Ev.yieldCall, Ev.exitCall] ∧
      (vTimer.killedAfterYield = true → vTimer.spsr &&& 0xF = PSR_USER_MODE →
        Ev.exitCall ∈ [Ev.timerTick, Ev.yieldCall, Ev.exitCall]) :=
  (C8_trap vTimer 2).2.2.2 (by decide) (by decide) rfl rfl [Ev.timerTick]
    (by decide) (by decide) [Ev.timerTick, Ev.yieldCall, Ev.exitCall] (by decide)

/-- Two page-aligned 32-bit addresses with the same directory and
table indices are equal. -/
theorem page_eq_of_PDX_PTX (x y : Nat) (hx : x % PGSIZE = 0) (hy : y % PGSIZE = 0)
    (hx32 : x < 2 ^ 32) (hy32 : y < 2 ^ 32)
    (h1 : PDX x = PDX y) (h2 : PTX x = PTX y) : x = y := by
  rw [PDX_eq, PDX_eq] at h1
  rw [PTX_eq, PTX_eq] at h2
  unfold PGSIZE at hx hy
  omega

/-- Point update of a one-argument table: reading the written index. -/
theorem upd1_self (f : Nat → Nat) (i v : Nat) : upd1 f i v i = v := by
  unfold upd1
  simp

/-- Point update of a two-argument table: reading the written key. -/
theorem upd2_self (f : Nat → Nat → Nat) (k : Nat) (g : Nat → Nat) :
    upd2 f k g k = g := by
  unfold upd2
  simp

/-- Writing the slot of page `a` sets `slotEntry` there. -/
theorem slotEntry_writeL2_self (s : VM) (a v : Nat)
    (hl1 : s.l1 (PDX a) ≠ 0) :
    slotEntry (writeL2 s (PTE_ADDR (s.l1 (PDX a))) (PTX a) v) a = v := by
  unfold slotEntry writeL2 upd2 upd1
  simp only []
  rw [if_neg hl1]
  simp

/-- Writing the slot of page `a` leaves the slot of any other
page-aligned 32-bit address `b` unchanged (the L1 injectivity of `VMwf`
rules out table aliasing). -/
theorem slotEntry_writeL2_other (s : VM) (a b v : Nat)
    (hinj : ∀ j j' : Nat, s.l1 j ≠ 0 → s.l1 j' ≠ 0 →
      PTE_ADDR (s.l1 j) = PTE_ADDR (s.l1 j') → j = j')
    (hl1 : s.l1 (PDX a) ≠ 0)
    (ha : a % PGSIZE = 0) (hb : b % PGSIZE = 0)
    (ha32 : a < 2 ^ 32) (hb32 : b < 2 ^ 32) (hne : b ≠ a) :
    slotEntry (writeL2 s (PTE_ADDR (s.l1 (PDX a))) (PTX a) v) b = slotEntry s b := by
  unfold slotEntry writeL2 upd2 upd1
  simp only []
  by_cases hbl1 : s.l1 (PDX b) = 0
  · rw [if_pos hbl1, if_pos hbl1]
  · rw [if_neg hbl1, if_neg hbl1]
    by_cases htbl : PTE_ADDR (s.l1 (PDX b)) = PTE_ADDR (s.l1 (PDX a))
    · have hpdx : PDX b = PDX a := hinj (PDX b) (PDX a) hbl1 hl1 htbl
      have hptx : PTX b ≠ PTX a := by
        intro hcon
        exact hne (page_eq_of_PDX_PTX b a hb ha hb32 ha32 hpdx hcon)
      rw [if_pos htbl, if_neg hptx, ← htbl]
    · rw [if_neg htbl]

/-- What one allocating walk does at page `a`, when the allocator is
not empty: it yields the slot location of `a`, whose current content
equals `slotEntry s a`; the L1 entry covering `a` is (now) present and
points at the returned table; present L1 entries are preserved; other
pages' slots are untouched; well-formedness is preserved; at most one
free page is consumed; the free log and data pages are untouched. -/
theorem walk_alloc_spec (s : VM) (a l1attr : Nat)
    (hwf : VMwf s) (ha : a % PGSIZE = 0) (ha32 : a < 2 ^ 32)
    (hl1a : l1attr < 2 ^ 12) (hfl : s.freeList ≠ []) :
    ∃ s1 tbl, walkpgdir s a l1attr true = some (s1, tbl, PTX a) ∧
      s1.l2 tbl (PTX a) = slotEntry s a ∧
      s1.l1 (PDX a) ≠ 0 ∧ PTE_ADDR (s1.l1 (PDX a)) = tbl ∧
      (∀ j, s.l1 j ≠ 0 → s1.l1 j = s.l1 j) ∧
      (∀ b, b % PGSIZE = 0 → b < 2 ^ 32 → b ≠ a → slotEntry s1 b = slotEntry s b) ∧
      VMwf s1 ∧
      (∃ t, t ≤ 1 ∧ s1.freeList = s.freeList.drop t) ∧
      s1.freed = s.freed ∧ s1.mem = s.mem := by
  unfold walkpgdir
  by_cases hpde : s.l1 (PDX a) ≠ 0
  · rw [if_pos hpde]
    refine ⟨s, PTE_ADDR (s.l1 (PDX a)), rfl, ?_, hpde, rfl, fun j _ => rfl,
      fun b _ _ _ => rfl, hwf, ⟨0, by omega, rfl⟩, rfl, rfl⟩
    unfold slotEntry
    rw [if_neg hpde]
  · push_neg at hpde
    rw [if_neg (by rw [hpde]; intro hcon; exact hcon rfl), if_pos rfl]
    cases hfree : s.freeList with
    | nil => exact absurd hfree hfl
    | cons f rest =>
      obtain ⟨hinj, hnodup, hfgood⟩ := hwf
      obtain ⟨hfk, hf32, hfal, hfnal⟩ := hfgood f (by rw [hfree]; exact List.mem_cons_self f rest)
      have hv2p : v2p f % 2 ^ 12 = 0 := by
        unfold v2p KERNBASE
        unfold PGSIZE at hfal
        omega
      have hv2p32 : v2p f < 2 ^ 32 := by
        unfold v2p KERNBASE
        omega
      have hvnz : v2p f ||| l1attr ≠ 0 := by
        rw [lor_aligned_add _ _ hv2p hl1a]
        have hfk' : 0x80000000 < f := hfk
        have hveq : v2p f = f - 0x80000000 := rfl
        rw [hveq]
        omega
      have hvaddr : PTE_ADDR (v2p f ||| l1attr) = v2p f :=
        PTE_ADDR_aligned _ _ hv2p hv2p32 hl1a
      unfold kalloc
      rw [hfree]
      simp only []
      set s1 : VM :=
        { s with freeList := rest,
                 l2 := upd2 s.l2 (v2p f) (fun _ => 0),
                 l1 := upd1 s.l1 (PDX a) (v2p f ||| l1attr) } with hs1
      refine ⟨s1, v2p f, rfl, ?_, ?_, ?_, ?_, ?_, ?_, ⟨1, by omega, rfl⟩, rfl, rfl⟩
      · -- the fresh table is zeroed, matching slotEntry s a = 0
        have hz : s1.l2 (v2p f) (PTX a) = 0 := by
          rw [hs1]
          simp only [upd2_self]
        rw [hz]
        unfold slotEntry
        rw [if_pos hpde]
      · rw [hs1]
        simp only [upd1_self]
        exact hvnz
      · rw [hs1]
        simp only [upd1_self]
        exact hvaddr
      · intro j hj
        rw [hs1]
        simp only [upd1]
        rw [if_neg]
        intro hcon
        rw [hcon] at hj
        exact hj hpde
      · -- other pages' slots unchanged
        intro b hbal hb32 hbne
        unfold slotEntry
        by_cases hbp : PDX b = PDX a
        · -- same directory slot: previously absent, now the zeroed fresh table
          rw [hbp]
          rw [hpde]
          rw [if_pos rfl]
          have hl1b : s1.l1 (PDX a) = v2p f ||| l1attr := by
            rw [hs1]
            simp only [upd1_self]
          rw [hl1b, if_neg hvnz, hvaddr]
          have : s1.l2 (v2p f) (PTX b) = 0 := by
            rw [hs1]
            simp only [upd2_self]
          rw [this]
        · have hl1b : s1.l1 (PDX b) = s.l1 (PDX b) := by
            rw [hs1]
            simp only [upd1]
            rw [if_neg hbp]
          rw [hl1b]
          by_cases hbz : s.l1 (PDX b) = 0
          · rw [if_pos hbz, if_pos hbz]
          · rw [if_neg hbz, if_neg hbz]
            have htbl : PTE_ADDR (s.l1 (PDX b)) ≠ v2p f := hfnal (PDX b) hbz
            rw [hs1]
            simp only [upd2]
            rw [if_neg htbl]
      · -- well-formedness is preserved
        refine ⟨?_, ?_, ?_⟩
        · intro j j' hj hj' heq
          have hsel : ∀ i : Nat, s1.l1 i = if i = PDX a then v2p f ||| l1attr else s.l1 i := by
            intro i
            rw [hs1]
            rfl
          rw [hsel j] at hj heq
          rw [hsel j'] at hj' heq
          by_cases hja : j = PDX a
          · by_cases hj'a : j' = PDX a
            · rw [hja, hj'a]
            · rw [if_pos hja] at heq
              rw [if_neg hj'a] at heq hj'
              rw [hvaddr] at heq
              exact absurd heq.symm (hfnal j' hj')
          · by_cases hj'a : j' = PDX a
            · rw [if_neg hja] at heq hj
              rw [if_pos hj'a] at heq
              rw [hvaddr] at heq
              exact absurd heq (hfnal j hj)
            · rw [if_neg hja] at heq hj
              rw [if_neg hj'a] at heq hj'
              exact hinj j j' hj hj' heq
        · have : s1.freeList = rest := by rw [hs1]
          rw [this]
          rw [hfree] at hnodup
          exact hnodup.of_cons
        · intro g hg
          have hgrest : g ∈ rest := by
            rw [hs1] at hg
            exact hg
          obtain ⟨hg1, hg2, hg3, hg4⟩ := hfgood g (by rw [hfree]; exact List.mem_cons_of_mem f hgrest)
          refine ⟨hg1, hg2, hg3, ?_⟩
          intro j hj
          have hsel : s1.l1 j = if j = PDX a then v2p f ||| l1attr else s.l1 j := by
            rw [hs1]
            rfl
          rw [hsel] at hj ⊢
          by_cases hja : j = PDX a
          · rw [if_pos hja] at hj ⊢
            rw [hvaddr]
            have hgne : g ≠ f := by
              intro hcon
              rw [hfree] at hnodup
              rw [hcon] at hgrest
              exact (List.nodup_cons.mp hnodup).1 hgrest
            have he1 : v2p f = f - 0x80000000 := rfl
            have he2 : v2p g = g - 0x80000000 := rfl
            have he3 : 0x80000000 < f := hfk
            have he4 : 0x80000000 < g := hg1
            rw [he1, he2]
            intro hcon
            apply hgne
            omega
          · rw [if_neg hja] at hj ⊢
            exact hg4 j hj

theorem vmwf_writeL2 (s : VM) (tbl idx v : Nat) (h : VMwf s) :
    VMwf (writeL2 s tbl idx v) := h

/-- One unfolding of the mapping loop when the walk succeeds. -/
theorem mapTblLoop_walk_step (s s1 : VM) (a last pa l1attr l2attr tbl idx fuel : Nat)
    (hwalk : walkpgdir s a l1attr true = some (s1, tbl, idx)) :
    mapTblLoop s a last pa l1attr l2attr (fuel + 1) =
      (if s1.l2 tbl idx ≠ 0 then .panicked "remap"
       else if a = last then .ok (writeL2 s1 tbl idx (pa ||| l2attr), 0)
       else mapTblLoop (writeL2 s1 tbl idx (pa ||| l2attr)) (a + PGSIZE) last
         (pa + PGSIZE) l1attr l2attr fuel) := by
  simp only [mapTblLoop]
  rw [hwalk]

/-- The table-mode mapping loop over `n` pages starting at the aligned
address `a0`, with enough fuel and free pages: it panics "remap"
exactly when some slot in the range is initially non-zero; otherwise
it writes `pa + k*PGSIZE | l2attr` into slot `k`, touches no other
slot, preserves well-formedness and present L1 entries, consumes at
most `n` free pages, and frees or writes nothing else. -/
theorem mapTblLoop_spec (l1attr l2attr : Nat) (hl1a : l1attr < 2 ^ 12) :
    ∀ (n : Nat) (s : VM) (a0 pa fuel : Nat),
      VMwf s → 0 < n → n ≤ fuel → a0 % PGSIZE = 0 →
      a0 + n * PGSIZE ≤ 2 ^ 32 → n ≤ s.freeList.length →
      ((∃ k, k < n ∧ slotEntry s (a0 + k * PGSIZE) ≠ 0) →
        mapTblLoop s a0 (a0 + (n - 1) * PGSIZE) pa l1attr l2attr fuel =
          .panicked "remap") ∧
      ((∀ k, k < n → slotEntry s (a0 + k * PGSIZE) = 0) →
        ∃ s', mapTblLoop s a0 (a0 + (n - 1) * PGSIZE) pa l1attr l2attr fuel =
            .ok (s', 0) ∧
          (∀ k, k < n → slotEntry s' (a0 + k * PGSIZE) = (pa + k * PGSIZE) ||| l2attr) ∧
          (∀ b, b % PGSIZE = 0 → b < 2 ^ 32 → (∀ k, k < n → b ≠ a0 + k * PGSIZE) →
            slotEntry s' b = slotEntry s b) ∧
          VMwf s' ∧
          (∀ j, s.l1 j ≠ 0 → s'.l1 j = s.l1 j) ∧
          (∃ t, t ≤ n ∧ s'.freeList = s.freeList.drop t) ∧
          s'.freed = s.freed ∧ s'.mem = s.mem) := by
  intro n
  induction n with
  | zero =>
    intro s a0 pa fuel _ hn
    omega
  | succ m ih =>
    intro s a0 pa fuel hwf hn hfuel hal hrange hflen
    cases fuel with
    | zero => omega
    | succ fuel =>
      have ha32 : a0 < 2 ^ 32 := by
        unfold PGSIZE at hrange
        omega
      have hfl : s.freeList ≠ [] := by
        intro hcon
        rw [hcon] at hflen
        simp at hflen
      obtain ⟨s1, tbl, hwalk, hentry, hl1p, htbl, hl1mono, hframe1, hwf1, hdrop1, hfreed1, hmem1⟩ :=
        walk_alloc_spec s a0 l1attr hwf hal ha32 hl1a hfl
      obtain ⟨t1, ht1, hdrop1e⟩ := hdrop1
      constructor
      · -- panic direction
        rintro ⟨k, hk, hknz⟩
        rw [mapTblLoop_walk_step s s1 a0 (a0 + (m + 1 - 1) * PGSIZE) pa l1attr l2attr
          tbl (PTX a0) fuel hwalk]
        by_cases h0 : slotEntry s a0 ≠ 0
        · rw [if_pos (by rw [hentry]; exact h0)]
        · push_neg at h0
          rw [if_neg (by rw [hentry, h0]; intro hcon; exact hcon rfl)]
          have hkpos : 0 < k := by
            rcases Nat.eq_zero_or_pos k with hz | hp
            · rw [hz] at hknz
              simp at hknz
              exact absurd h0 hknz
            · exact hp
          have hm : 0 < m := by omega
          rw [if_neg (by
            intro hcon
            have : m = 0 := by
              unfold PGSIZE at hcon
              omega
            omega)]
          set s2 := writeL2 s1 tbl (PTX a0) (pa ||| l2attr) with hs2
          have hwf2 : VMwf s2 := vmwf_writeL2 s1 tbl (PTX a0) (pa ||| l2attr) hwf1
          have harith : a0 + (m + 1 - 1) * PGSIZE = (a0 + PGSIZE) + (m - 1) * PGSIZE := by
            unfold PGSIZE
            omega
          rw [harith]
          apply (ih s2 (a0 + PGSIZE) (pa + PGSIZE) fuel hwf2 hm (by omega)
            (by unfold PGSIZE at hal ⊢; omega)
            (by unfold PGSIZE at hrange ⊢; omega)
            (by
              have : s2.freeList = s1.freeList := rfl
              rw [this, hdrop1e, List.length_drop]
              omega)).1
          refine ⟨k - 1, by omega, ?_⟩
          have hbal : (a0 + PGSIZE + (k - 1) * PGSIZE) % PGSIZE = 0 := by
            unfold PGSIZE at hal ⊢
            omega
          have hb32 : a0 + PGSIZE + (k - 1) * PGSIZE < 2 ^ 32 := by
            unfold PGSIZE at hrange ⊢
            omega
          have hbne : a0 + PGSIZE + (k - 1) * PGSIZE ≠ a0 := by
            unfold PGSIZE
            omega
          have he1 : slotEntry s2 (a0 + PGSIZE + (k - 1) * PGSIZE) =
              slotEntry s1 (a0 + PGSIZE + (k - 1) * PGSIZE) := by
            rw [hs2, ← htbl]
            exact slotEntry_writeL2_other s1 a0 _ (pa ||| l2attr) hwf1.1
              hl1p hal hbal ha32 hb32 hbne
          rw [he1, hframe1 _ hbal hb32 hbne]
          have : a0 + PGSIZE + (k - 1) * PGSIZE = a0 + k * PGSIZE := by
            unfold PGSIZE
            omega
          rw [this]
          exact hknz
      · -- success direction
        intro hzero
        rw [mapTblLoop_walk_step s s1 a0 (a0 + (m + 1 - 1) * PGSIZE) pa l1attr l2attr
          tbl (PTX a0) fuel hwalk]
        rw [if_neg (by
          rw [hentry]
          have h00 := hzero 0 (by omega)
          simp only [Nat.zero_mul, Nat.add_zero] at h00
          rw [h00]
          intro hcon
          exact hcon rfl)]
        set v0 := pa ||| l2attr with hv0
        set s2 := writeL2 s1 tbl (PTX a0) v0 with hs2
        have hwf2 : VMwf s2 := vmwf_writeL2 s1 tbl (PTX a0) v0 hwf1
        have hl1p2 : s2.l1 (PDX a0) ≠ 0 := hl1p
        have hself : slotEntry s2 a0 = v0 := by
          rw [hs2, ← htbl]
          exact slotEntry_writeL2_self s1 a0 v0 hl1p
        have hoth : ∀ b, b % PGSIZE = 0 → b < 2 ^ 32 → b ≠ a0 →
            slotEntry s2 b = slotEntry s b := by
          intro b hbal hb32 hbne
          have : slotEntry s2 b = slotEntry s1 b := by
            rw [hs2, ← htbl]
            exact slotEntry_writeL2_other s1 a0 b v0 hwf1.1 hl1p hal hbal ha32 hb32 hbne
          rw [this, hframe1 b hbal hb32 hbne]
        have hl1mono2 : ∀ j, s.l1 j ≠ 0 → s2.l1 j = s.l1 j := hl1mono
        cases Nat.eq_zero_or_pos m with
        | inl hm0 =>
          -- last page: a0 = last
          rw [hm0]
          rw [if_pos (by norm_num)]
          refine ⟨s2, rfl, ?_, ?_, hwf2, hl1mono2, ⟨t1, by omega, hdrop1e⟩, hfreed1, hmem1⟩
          · intro k hk
            interval_cases k
            simpa using hself
          · intro b hbal hb32 hbne
            exact hoth b hbal hb32 (by have := hbne 0 (by omega); simpa using this)
        | inr hm =>
          rw [if_neg (by
            intro hcon
            have : m = 0 := by
              unfold PGSIZE at hcon
              omega
            omega)]
          have harith : a0 + (m + 1 - 1) * PGSIZE = (a0 + PGSIZE) + (m - 1) * PGSIZE := by
            unfold PGSIZE
            omega
          rw [harith]
          have hrec := (ih s2 (a0 + PGSIZE) (pa + PGSIZE) fuel hwf2 hm (by omega)
            (by unfold PGSIZE at hal ⊢; omega)
            (by unfold PGSIZE at hrange ⊢; omega)
            (by
              have : s2.freeList = s1.freeList := rfl
              rw [this, hdrop1e, List.length_drop]
              omega)).2
          have hz2 : ∀ k, k < m → slotEntry s2 (a0 + PGSIZE + k * PGSIZE) = 0 := by
            intro k hk
            have hbal : (a0 + PGSIZE + k * PGSIZE) % PGSIZE = 0 := by
              unfold PGSIZE at hal ⊢
              omega
            have hb32 : a0 + PGSIZE + k * PGSIZE < 2 ^ 32 := by
              unfold PGSIZE at hrange ⊢
              omega
            have hbne : a0 + PGSIZE + k * PGSIZE ≠ a0 := by
              unfold PGSIZE
              omega
            rw [hoth _ hbal hb32 hbne]
            have : a0 + PGSIZE + k * PGSIZE = a0 + (k + 1) * PGSIZE := by
              unfold PGSIZE
              omega
            rw [this]
            exact hzero (k + 1) (by omega)
          obtain ⟨s', hrun, hslots, hframe, hwf', hl1m', ⟨t', ht', hdrop'⟩, hfreed', hmem'⟩ :=
            hrec hz2
          refine ⟨s', hrun, ?_, ?_, hwf', ?_, ?_, ?_, ?_⟩
          · intro k hk
            cases Nat.eq_zero_or_pos k with
            | inl hk0 =>
              rw [hk0]
              simp only [Nat.zero_mul, Nat.add_zero]
              have ha0ne : ∀ k2, k2 < m → a0 ≠ a0 + PGSIZE + k2 * PGSIZE := by
                intro k2 _
                unfold PGSIZE
                omega
              rw [hframe a0 hal ha32 ha0ne, hself]
            | inr hkpos =>
              have : a0 + k * PGSIZE = a0 + PGSIZE + (k - 1) * PGSIZE := by
                unfold PGSIZE
                omega
              rw [this]
              have hpa : pa + PGSIZE + (k - 1) * PGSIZE = pa + k * PGSIZE := by
                unfold PGSIZE
                omega
              rw [hslots (k - 1) (by omega), hpa]
          · intro b hbal hb32 hbne
            have hbne2 : ∀ k2, k2 < m → b ≠ a0 + PGSIZE + k2 * PGSIZE := by
              intro k2 hk2
              have : a0 + PGSIZE + k2 * PGSIZE = a0 + (k2 + 1) * PGSIZE := by
                unfold PGSIZE
                omega
              rw [this]
              exact hbne (k2 + 1) (by omega)
            rw [hframe b hbal hb32 hbne2]
            exact hoth b hbal hb32 (by have := hbne 0 (by omega); simpa using this)
          · intro j hj
            rw [hl1m' j (by rw [hl1mono2 j hj]; exact hj), hl1mono2 j hj]
          · refine ⟨t1 + t', by omega, ?_⟩
            have hs2f : s2.freeList = s.freeList.drop t1 := hdrop1e
            rw [hdrop', hs2f, List.drop_drop]
          · have hs2freed : s2.freed = s1.freed := rfl
            rw [hfreed', hs2freed, hfreed1]
          · have hs2mem : s2.mem = s1.mem := rfl
            rw [hmem', hs2mem, hmem1]

/-- Entries written as `pa | UVM_PTX_ATRB` are never zero (bit 1, the
small-page marker, is set in the attribute word). -/
theorem uvm_pte_ne_zero (pa : Nat) : pa ||| UVM_PTX_ATRB ≠ 0 := by
  intro hcon
  have hb := Nat.testBit_lor pa UVM_PTX_ATRB 1
  rw [hcon] at hb
  have h1 : Nat.testBit 0 1 = false := by decide
  have h2 : Nat.testBit UVM_PTX_ATRB 1 = true := by decide
  rw [h1, h2] at hb
  simp at hb

/-- C5 — `mappages` in table mode over the `n` pages of the rounded
range `[a0, last]`: given a well-formed state with enough free pages,
it panics "remap" if and only if some target L2 slot in the walked
range is non-zero; under the precondition that every target slot is
zero, the panic branch is unreachable, each slot `k` is written as
`(pa + k*PGSIZE) | l2attr` (nothing else changes, well-formedness is
preserved, at most `n` pages are consumed); and mapping the same
range twice with the user attributes makes the second call halt with
the "remap" diagnostic. -/
theorem C5_mappages_remap (s : VM) (va size pa a0 n : Nat) (l1attr l2attr : Nat)
    (hwf : VMwf s)
    (hsec : PDX_ATRB_SECTION_ENTRY &&& l1attr = 0)
    (htbl : PDX_ATRB_PTX_ENTRY &&& l1attr ≠ 0)
    (hl1a : l1attr < 2 ^ 12)
    (hsz : 0 < size) (hva : va + size ≤ 2 ^ 32)
    (ha0 : a0 = PG_ROUND_DOWN va)
    (hn : n = (PG_ROUND_DOWN (va + size - 1) - PG_ROUND_DOWN va) / PGSIZE + 1)
    (hflen : n ≤ s.freeList.length) :
    (mappages s va size pa l1attr l2attr = .panicked "remap" ↔
      ∃ k, k < n ∧ slotEntry s (a0 + k * PGSIZE) ≠ 0) ∧
    ((∀ k, k < n → slotEntry s (a0 + k * PGSIZE) = 0) →
      ∃ s', mappages s va size pa l1attr l2attr = .ok (s', 0) ∧
        (∀ k, k < n → slotEntry s' (a0 + k * PGSIZE) = (pa + k * PGSIZE) ||| l2attr) ∧
        VMwf s' ∧ (∃ t, t ≤ n ∧ s'.freeList = s.freeList.drop t)) ∧
    (∀ (s1 : VM) (r : Int) (pa2 : Nat),
      l1attr = UVM_PDX_ATRB → l2attr = UVM_PTX_ATRB →
      (∀ k, k < n → slotEntry s (a0 + k * PGSIZE) = 0) →
      2 * n ≤ s.freeList.length →
      mappages s va size pa l1attr l2attr = .ok (s1, r) →
      mappages s1 va size pa2 l1attr l2attr = .panicked "remap") := by
  have hva32 : va < 2 ^ 32 := by omega
  have hve32 : va + size - 1 < 2 ^ 32 := by omega
  have hdown : PG_ROUND_DOWN va = va / 2 ^ 12 * 2 ^ 12 := PG_ROUND_DOWN_eq va hva32
  have hdown2 : PG_ROUND_DOWN (va + size - 1) = (va + size - 1) / 2 ^ 12 * 2 ^ 12 :=
    PG_ROUND_DOWN_eq _ hve32
  have hal : a0 % PGSIZE = 0 := by
    rw [ha0, hdown]
    unfold PGSIZE
    omega
  have hlast : PG_ROUND_DOWN (va + size - 1) = a0 + (n - 1) * PGSIZE := by
    rw [ha0, hn, hdown, hdown2]
    unfold PGSIZE
    omega
  have hnpos : 0 < n := by
    rw [hn]
    unfold PGSIZE
    omega
  have hrange : a0 + n * PGSIZE ≤ 2 ^ 32 := by
    rw [ha0, hn, hdown, hdown2]
    unfold PGSIZE
    omega
  have hmain := mapTblLoop_spec l1attr l2attr hl1a n s a0 pa
    ((PG_ROUND_DOWN (va + size - 1) - PG_ROUND_DOWN va) / PGSIZE + 1)
    hwf hnpos (by omega) hal hrange hflen
  have hunf : mappages s va size pa l1attr l2attr =
      mapTblLoop s a0 (a0 + (n - 1) * PGSIZE) pa l1attr l2attr
        ((PG_ROUND_DOWN (va + size - 1) - PG_ROUND_DOWN va) / PGSIZE + 1) := by
    unfold mappages
    rw [if_neg (by rw [hsec]; intro hcon; exact hcon rfl), if_pos htbl]
    rw [← ha0, ← hlast]
  constructor
  · constructor
    · intro hpanic
      by_contra hno
      push_neg at hno
      obtain ⟨s', hok, _⟩ := hmain.2 (fun k hk => hno k hk)
      rw [hunf] at hpanic
      rw [hok] at hpanic
      cases hpanic
    · intro hex
      rw [hunf]
      exact hmain.1 hex
  · constructor
    · intro hzero
      obtain ⟨s', hok, hslots, _, hwf', _, hdrop, _, _⟩ := hmain.2 hzero
      exact ⟨s', by rw [hunf]; exact hok, hslots, hwf', hdrop⟩
    · intro s1 r pa2 hl1u hl2u hzero hflen2 hfirst
      obtain ⟨s', hok, hslots, hframe, hwf', hl1m, ⟨t, ht, hdropt⟩, _, _⟩ := hmain.2 hzero
      have hs1 : s1 = s' ∧ r = 0 := by
        rw [hunf, hok] at hfirst
        cases hfirst
        exact ⟨rfl, rfl⟩
      rw [hs1.1]
      have hmain2 := mapTblLoop_spec l1attr l2attr hl1a n s' a0 pa2
        ((PG_ROUND_DOWN (va + size - 1) - PG_ROUND_DOWN va) / PGSIZE + 1)
        hwf' hnpos (by omega) hal hrange
        (by
          rw [hdropt, List.length_drop]
          omega)
      have hunf2 : mappages s' va size pa2 l1attr l2attr =
          mapTblLoop s' a0 (a0 + (n - 1) * PGSIZE) pa2 l1attr l2attr
            ((PG_ROUND_DOWN (va + size - 1) - PG_ROUND_DOWN va) / PGSIZE + 1) := by
        unfold mappages
        rw [if_neg (by rw [hsec]; intro hcon; exact hcon rfl), if_pos htbl]
        rw [← ha0, ← hlast]
      rw [hunf2]
      apply hmain2.1
      refine ⟨0, by omega, ?_⟩
      rw [hslots 0 (by omega), hl2u]
      exact uvm_pte_ne_zero _

/-- Witness for C5: on a concrete empty page directory with one free
page, mapping one user page at va 0x3000 to pa 0x9000 succeeds and
writes the L2 slot as `0x9000 | UVM_PTX_ATRB`, preserving
well-formedness. -/
theorem C5_mappages_remap_witness :
    ∃ s' : VM,
      mappages vmOnePage 0x3000 0x1000 0x9000 UVM_PDX_ATRB UVM_PTX_ATRB = Res.ok (s', 0) ∧
      slotEntry s' 0x3000 = 0x9000 ||| UVM_PTX_ATRB ∧ VMwf s' := by
  have hwf : VMwf vmOnePage := by
    refine ⟨fun j j' hj _ _ => absurd rfl hj, by decide, ?_⟩
    intro f hf
    have hfe : f = KERNBASE + 0x8000 := by simpa [vmOnePage] using hf
    subst hfe
    exact ⟨by decide, by decide, by decide, fun j hj => absurd rfl hj⟩
  have h := C5_mappages_remap vmOnePage 0x3000 0x1000 0x9000 0x3000 1
    UVM_PDX_ATRB UVM_PTX_ATRB hwf (by decide) (by decide) (by decide)
    (by decide) (by decide) (by decide) (by decide) (by decide)
  obtain ⟨s', hok, hsl, hwf', _⟩ := h.2.1 (fun k _ => by
    unfold slotEntry
    rw [if_pos (show vmOnePage.l1 (PDX (0x3000 + k * PGSIZE)) = 0 from rfl)])
  refine ⟨s', hok, ?_, hwf'⟩
  have hs := hsl 0 (by omega)
  simpa using hs

/-- `PG_ROUND_UP` on a value whose rounded form stays below 2^32. -/
theorem PG_ROUND_UP_eq (x : Nat) (h : x + PGSIZE - 1 < 2 ^ 32) :
    PG_ROUND_UP x = (x + PGSIZE - 1) / 2 ^ 12 * 2 ^ 12 :=
  and_mask_high_eq _ h

/-- The rounded-up size is page-aligned. -/
theorem pg_round_up_aligned (x : Nat) (h : x ≤ 2 ^ 31) :
    PG_ROUND_UP x % PGSIZE = 0 := by
  rw [PG_ROUND_UP_eq x (by unfold PGSIZE; omega)]
  unfold PGSIZE
  omega

/-- Rounding up does not shrink. -/
theorem pg_round_up_ge (x : Nat) (h : x ≤ 2 ^ 31) : x ≤ PG_ROUND_UP x := by
  rw [PG_ROUND_UP_eq x (by unfold PGSIZE; omega)]
  unfold PGSIZE at *
  omega

/-- Point update of a two-argument table: reading another key. -/
theorem upd2_other {α : Type} (f : Nat → α) (k : Nat) (g : α) (k' : Nat)
    (h : k' ≠ k) : upd2 f k g k' = f k' := by
  unfold upd2
  rw [if_neg h]

/-- A non-allocating walk under a present L1 entry. -/
theorem walk_noalloc_present (s : VM) (a l1attr : Nat) (h : s.l1 (PDX a) ≠ 0) :
    walkpgdir s a l1attr false = some (s, PTE_ADDR (s.l1 (PDX a)), PTX a) := by
  unfold walkpgdir
  rw [if_pos h]

/-- A non-allocating walk under an absent L1 entry returns null. -/
theorem walk_noalloc_absent (s : VM) (a l1attr : Nat) (h : s.l1 (PDX a) = 0) :
    walkpgdir s a l1attr false = none := by
  unfold walkpgdir
  rw [if_neg (by rw [h]; intro hcon; exact hcon rfl)]
  rfl

/-- One `deallocuvm`-loop step at an address below `oldsz` whose L1
entry is present. -/
theorem deallocLoop_step_present (s : VM) (a oldsz fuel : Nat)
    (hlt : a < oldsz) (h : s.l1 (PDX a) ≠ 0) :
    deallocLoop s a oldsz (fuel + 1) =
      (if s.l2 (PTE_ADDR (s.l1 (PDX a))) (PTX a) ≠ 0 then
        if PTE_ADDR (s.l2 (PTE_ADDR (s.l1 (PDX a))) (PTX a)) = 0 then .panicked "kfree"
        else deallocLoop
          (writeL2 (kfreePage s (p2v (PTE_ADDR (s.l2 (PTE_ADDR (s.l1 (PDX a))) (PTX a)))))
            (PTE_ADDR (s.l1 (PDX a))) (PTX a) 0)
          (a + PGSIZE) oldsz fuel
      else deallocLoop s (a + PGSIZE) oldsz fuel) := by
  simp only [deallocLoop]
  rw [if_pos hlt, walk_noalloc_present s a UVM_PDX_ATRB h]

/-- One `deallocuvm`-loop step at an address below `oldsz` whose L1
entry is absent: the 4 MiB skip. -/
theorem deallocLoop_step_absent (s : VM) (a oldsz fuel : Nat)
    (hlt : a < oldsz) (h : s.l1 (PDX a) = 0) :
    deallocLoop s a oldsz (fuel + 1) =
      deallocLoop s (a + N_PT_ENTRIES * PGSIZE) oldsz fuel := by
  simp only [deallocLoop]
  rw [if_pos hlt, walk_noalloc_absent s a UVM_PDX_ATRB h]

/-- The `deallocuvm` loop stops at `oldsz`. -/
theorem deallocLoop_step_done (s : VM) (a oldsz fuel : Nat) (hge : ¬ a < oldsz) :
    deallocLoop s a oldsz (fuel + 1) = .ok s := by
  simp only [deallocLoop]
  rw [if_neg hge]

/-- The `deallocuvm` page loop over a range whose slots are "mapped
with a non-null frame up to `cut`, then clear": it completes without
panicking, clears every slot of the range, and touches nothing else
(in particular the directory, the allocator and the data pages).  The
shape hypothesis is exactly what holds during `allocuvm`'s rollback:
every skip taken at an absent L1 entry covers only already-clear
slots, so the `N_PT_ENTRIES` overshoot (see C2) is harmless here. -/
theorem deallocLoop_spec :
    ∀ (fuel : Nat) (s : VM) (a oldsz cut : Nat),
      (∀ j j' : Nat, s.l1 j ≠ 0 → s.l1 j' ≠ 0 →
        PTE_ADDR (s.l1 j) = PTE_ADDR (s.l1 j') → j = j') →
      a % PGSIZE = 0 → oldsz ≤ 2 ^ 32 →
      0 < fuel → oldsz ≤ a + (fuel - 1) * PGSIZE →
      (∀ b, a ≤ b → b < oldsz → b % PGSIZE = 0 →
        (b < cut → PTE_ADDR (slotEntry s b) ≠ 0) ∧ (cut ≤ b → slotEntry s b = 0)) →
      ∃ s', deallocLoop s a oldsz fuel = .ok s' ∧
        s'.l1 = s.l1 ∧ s'.freeList = s.freeList ∧ s'.mem = s.mem ∧
        (∀ b, a ≤ b → b < oldsz → b % PGSIZE = 0 → slotEntry s' b = 0) ∧
        (∀ b, b % PGSIZE = 0 → b < 2 ^ 32 → (b < a ∨ oldsz ≤ b) →
          slotEntry s' b = slotEntry s b) := by
  intro fuel
  induction fuel with
  | zero =>
    intro s a oldsz cut _ _ _ hf
    omega
  | succ fuel ih =>
    intro s a oldsz cut hinj hal hsz _ hfuel hshape
    by_cases hlt : a < oldsz
    · have hfpos : 0 < fuel := by
        by_contra hcon
        have : fuel = 0 := by omega
        rw [this] at hfuel
        simp at hfuel
        omega
      have haa := hshape a le_rfl hlt hal
      by_cases hL1 : s.l1 (PDX a) = 0
      · -- absent L1 entry: the whole covered stretch is clear
        have hsa : slotEntry s a = 0 := by
          unfold slotEntry
          rw [if_pos hL1]
        have hcuta : cut ≤ a := by
          by_contra hcon
          push_neg at hcon
          have := haa.1 hcon
          rw [hsa] at this
          exact this (by decide)
        rw [deallocLoop_step_absent s a oldsz fuel hlt hL1]
        obtain ⟨s', hrun, hl1', hfl', hmem', hclear', hframe'⟩ :=
          ih s (a + N_PT_ENTRIES * PGSIZE) oldsz cut hinj
            (by unfold PGSIZE at hal; unfold PGSIZE N_PT_ENTRIES; omega) hsz hfpos
            (by unfold PGSIZE at hfuel; unfold PGSIZE N_PT_ENTRIES; omega)
            (fun b hb1 hb2 hb3 => hshape b (by omega) hb2 hb3)
        refine ⟨s', hrun, hl1', hfl', hmem', ?_, ?_⟩
        · intro b hb1 hb2 hb3
          by_cases hbig : a + N_PT_ENTRIES * PGSIZE ≤ b
          · exact hclear' b hbig hb2 hb3
          · push_neg at hbig
            rw [hframe' b hb3 (by omega) (Or.inl hbig)]
            exact (hshape b hb1 hb2 hb3).2 (by omega)
        · intro b hb1 hb2 hb3
          refine hframe' b hb1 hb2 ?_
          rcases hb3 with h | h
          · left
            unfold PGSIZE N_PT_ENTRIES
            omega
          · right
            exact h
      · -- present L1 entry: the slot itself decides
        rw [deallocLoop_step_present s a oldsz fuel hlt hL1]
        have hsa : slotEntry s a = s.l2 (PTE_ADDR (s.l1 (PDX a))) (PTX a) := by
          unfold slotEntry
          rw [if_neg hL1]
        by_cases hz : s.l2 (PTE_ADDR (s.l1 (PDX a))) (PTX a) = 0
        · rw [if_neg (by rw [hz]; intro hcon; exact hcon rfl)]
          obtain ⟨s', hrun, hl1', hfl', hmem', hclear', hframe'⟩ :=
            ih s (a + PGSIZE) oldsz cut hinj
              (by unfold PGSIZE at hal ⊢; omega) hsz hfpos
              (by unfold PGSIZE at hfuel ⊢; omega)
              (fun b hb1 hb2 hb3 => hshape b (by omega) hb2 hb3)
          refine ⟨s', hrun, hl1', hfl', hmem', ?_, ?_⟩
          · intro b hb1 hb2 hb3
            by_cases hnext : a + PGSIZE ≤ b
            · exact hclear' b hnext hb2 hb3
            · push_neg at hnext
              have hba : b = a := by
                unfold PGSIZE at hal hb3 hnext
                omega
              rw [hframe' b hb3 (by omega) (Or.inl hnext), hba, hsa]
              exact hz
          · intro b hb1 hb2 hb3
            refine hframe' b hb1 hb2 ?_
            rcases hb3 with h | h
            · left
              unfold PGSIZE
              omega
            · right
              exact h
        · -- live mapping: free the frame and clear the slot
          have hacut : a < cut := by
            by_contra hcon
            push_neg at hcon
            have := haa.2 hcon
            rw [hsa] at this
            exact hz this
          have hpa : PTE_ADDR (s.l2 (PTE_ADDR (s.l1 (PDX a))) (PTX a)) ≠ 0 := by
            have := haa.1 hacut
            rw [hsa] at this
            exact this
          rw [if_pos hz, if_neg (by intro hcon; exact hpa hcon)]
          set s2 : VM :=
            writeL2 (kfreePage s (p2v (PTE_ADDR (s.l2 (PTE_ADDR (s.l1 (PDX a))) (PTX a)))))
              (PTE_ADDR (s.l1 (PDX a))) (PTX a) 0 with hs2
          have hs2l1 : s2.l1 = s.l1 := rfl
          have hs2fl : s2.freeList = s.freeList := rfl
          have hs2mem : s2.mem = s.mem := rfl
          have hs2self : slotEntry s2 a = 0 := by
            rw [hs2]
            exact slotEntry_writeL2_self (kfreePage s _) a 0 hL1
          have hs2oth : ∀ b, b % PGSIZE = 0 → b < 2 ^ 32 → b ≠ a →
              slotEntry s2 b = slotEntry s b := by
            intro b hb1 hb2 hb3
            rw [hs2]
            exact slotEntry_writeL2_other (kfreePage s _) a b 0 hinj hL1 hal hb1
              (by omega) hb2 hb3
          obtain ⟨s', hrun, hl1', hfl', hmem', hclear', hframe'⟩ :=
            ih s2 (a + PGSIZE) oldsz cut hinj
              (by unfold PGSIZE at hal ⊢; omega) hsz hfpos
              (by unfold PGSIZE at hfuel ⊢; omega)
              (by
                intro b hb1 hb2 hb3
                rw [hs2oth b hb3 (by omega) (by unfold PGSIZE at hb1; omega)]
                exact hshape b (by omega) hb2 hb3)
          refine ⟨s', hrun, by rw [hl1', hs2l1], by rw [hfl', hs2fl],
            by rw [hmem', hs2mem], ?_, ?_⟩
          · intro b hb1 hb2 hb3
            by_cases hnext : a + PGSIZE ≤ b
            · exact hclear' b hnext hb2 hb3
            · push_neg at hnext
              have hba : b = a := by
                unfold PGSIZE at hal hb3 hnext
                omega
              rw [hframe' b hb3 (by omega) (Or.inl hnext), hba]
              exact hs2self
          · intro b hb1 hb2 hb3
            have hbna : b ≠ a := by
              rcases hb3 with h | h
              · omega
              · omega
            rw [hframe' b hb1 hb2 ?_, hs2oth b hb1 hb2 hbna]
            rcases hb3 with h | h
            · left
              unfold PGSIZE
              omega
            · right
              exact h
    · rw [deallocLoop_step_done s a oldsz fuel hlt]
      refine ⟨s, rfl, rfl, rfl, rfl, ?_, fun b _ _ _ => rfl⟩
      intro b hb1 hb2 _
      omega

/-- The `allocuvm` page loop stops at `newsz`. -/
theorem allocLoop_step_done (s : VM) (a newsz oldsz fuel : Nat)
    (h : ¬ a < newsz) :
    allocLoop s a newsz oldsz (fuel + 1) = .ok (s, newsz) := by
  simp only [allocLoop]
  rw [if_neg h]

/-- One `allocuvm`-loop step when `alloc_page` fails: print, roll back
through `deallocuvm(pgdir, newsz, oldsz)`, return 0. -/
theorem allocLoop_step_fail (s : VM) (a newsz oldsz fuel : Nat)
    (hlt : a < newsz) (hk : s.freeList = []) :
    allocLoop s a newsz oldsz (fuel + 1) =
      (match deallocuvm s newsz oldsz with
       | .ok (s1, _) => .ok (s1, 0)
       | .panicked m => .panicked m
       | .nofuel => .nofuel) := by
  simp only [allocLoop]
  rw [if_pos hlt]
  have hka : kalloc s = none := by
    unfold kalloc
    rw [hk]
  rw [hka]

/-- One `allocuvm`-loop step when `alloc_page` returns `m`: zero the
page and map it (the result of `mappages` is discarded). -/
theorem allocLoop_step_alloc (s : VM) (a newsz oldsz fuel m : Nat) (rest : List Nat)
    (hlt : a < newsz) (hk : s.freeList = m :: rest) :
    allocLoop s a newsz oldsz (fuel + 1) =
      (match mappages { s with freeList := rest, mem := upd2 s.mem (v2p m) (fun _ => 0) }
          a PGSIZE (v2p m) UVM_PDX_ATRB UVM_PTX_ATRB with
       | .ok (s3, _) => allocLoop s3 (a + PGSIZE) newsz oldsz fuel
       | .panicked msg => .panicked msg
       | .nofuel => .nofuel) := by
  simp only [allocLoop]
  rw [if_pos hlt]
  have hka : kalloc s = some (m, { s with freeList := rest }) := by
    unfold kalloc
    rw [hk]
  rw [hka]

/-- `mappages` over one user page whose L1 entry is already present:
it writes the slot and changes nothing else (no allocation needed, so
an empty free list is fine). -/
theorem mappages_one_page_present (s : VM) (a pa : Nat)
    (hinj : ∀ j j' : Nat, s.l1 j ≠ 0 → s.l1 j' ≠ 0 →
      PTE_ADDR (s.l1 j) = PTE_ADDR (s.l1 j') → j = j')
    (hal : a % PGSIZE = 0) (ha32 : a + PGSIZE ≤ 2 ^ 32)
    (hpres : s.l1 (PDX a) ≠ 0) (hz : slotEntry s a = 0) :
    ∃ s' : VM, mappages s a PGSIZE pa UVM_PDX_ATRB UVM_PTX_ATRB = .ok (s', 0) ∧
      slotEntry s' a = pa ||| UVM_PTX_ATRB ∧
      (∀ b, b % PGSIZE = 0 → b < 2 ^ 32 → b ≠ a → slotEntry s' b = slotEntry s b) ∧
      s'.l1 = s.l1 ∧ s'.freeList = s.freeList ∧ s'.freed = s.freed ∧ s'.mem = s.mem := by
  have ha32s : a < 2 ^ 32 := by
    unfold PGSIZE at ha32
    omega
  have hada : PG_ROUND_DOWN a = a := by
    rw [PG_ROUND_DOWN_eq a ha32s]
    unfold PGSIZE at hal
    omega
  have hlast : PG_ROUND_DOWN (a + PGSIZE - 1) = a := by
    rw [PG_ROUND_DOWN_eq _ (by unfold PGSIZE at ha32 ⊢; omega)]
    unfold PGSIZE at hal ⊢
    omega
  have hunf : mappages s a PGSIZE pa UVM_PDX_ATRB UVM_PTX_ATRB =
      mapTblLoop s a a pa UVM_PDX_ATRB UVM_PTX_ATRB ((a - a) / PGSIZE + 1) := by
    unfold mappages
    rw [if_neg (by intro hcon; exact hcon rfl), if_pos (by decide)]
    rw [hada, hlast]
  have hfe : (a - a) / PGSIZE + 1 = 0 + 1 := by
    unfold PGSIZE
    omega
  rw [hunf, hfe]
  have hwalk : walkpgdir s a UVM_PDX_ATRB true = some (s, PTE_ADDR (s.l1 (PDX a)), PTX a) := by
    unfold walkpgdir
    rw [if_pos hpres]
  rw [mapTblLoop_walk_step s s a a pa UVM_PDX_ATRB UVM_PTX_ATRB
    (PTE_ADDR (s.l1 (PDX a))) (PTX a) 0 hwalk]
  have hsl : s.l2 (PTE_ADDR (s.l1 (PDX a))) (PTX a) = slotEntry s a := by
    unfold slotEntry
    rw [if_neg hpres]
  rw [if_neg (by rw [hsl, hz]; intro hcon; exact hcon rfl), if_pos rfl]
  refine ⟨writeL2 s (PTE_ADDR (s.l1 (PDX a))) (PTX a) (pa ||| UVM_PTX_ATRB), rfl, ?_, ?_,
    rfl, rfl, rfl, rfl⟩
  · exact slotEntry_writeL2_self s a _ hpres
  · intro b hb1 hb2 hb3
    exact slotEntry_writeL2_other s a b _ hinj hpres hal hb1 ha32s hb2 hb3
/-- `mappages` over one user page whose L1 entry is absent while the
allocator is empty: `walkpgdir` returns null and the failure code −1
is produced (and, in `allocuvm`, then ignored). -/
theorem mappages_one_page_fail (s : VM) (a pa : Nat)
    (hal : a % PGSIZE = 0) (ha32 : a + PGSIZE ≤ 2 ^ 32)
    (hfl : s.freeList = []) (habs : s.l1 (PDX a) = 0) :
    mappages s a PGSIZE pa UVM_PDX_ATRB UVM_PTX_ATRB = .ok (s, -1) := by
  have ha32s : a < 2 ^ 32 := by
    unfold PGSIZE at ha32
    omega
  have hada : PG_ROUND_DOWN a = a := by
    rw [PG_ROUND_DOWN_eq a ha32s]
    unfold PGSIZE at hal
    omega
  have hlast : PG_ROUND_DOWN (a + PGSIZE - 1) = a := by
    rw [PG_ROUND_DOWN_eq _ (by unfold PGSIZE at ha32 ⊢; omega)]
    unfold PGSIZE at hal ⊢
    omega
  have hunf : mappages s a PGSIZE pa UVM_PDX_ATRB UVM_PTX_ATRB =
      mapTblLoop s a a pa UVM_PDX_ATRB UVM_PTX_ATRB ((a - a) / PGSIZE + 1) := by
    unfold mappages
    rw [if_neg (by intro hcon; exact hcon rfl), if_pos (by decide)]
    rw [hada, hlast]
  have hfe : (a - a) / PGSIZE + 1 = 0 + 1 := by
    unfold PGSIZE
    omega
  rw [hunf, hfe]
  have hka : kalloc s = none := by
    unfold kalloc
    rw [hfl]
  have hwalk : walkpgdir s a UVM_PDX_ATRB true = none := by
    unfold walkpgdir
    rw [if_neg (by rw [habs]; intro hcon; exact hcon rfl), hka]
    rfl
  simp only [mapTblLoop]
  rw [hwalk]

/-- `mappages` over one user page with at least one free page: the
slot gets `pa | UVM_PTX_ATRB`, other pages are untouched, and at most
one page is consumed (for a fresh L2 table). -/
theorem mappages_one_page (s : VM) (a pa : Nat)
    (hwf : VMwf s) (hal : a % PGSIZE = 0) (ha32 : a + PGSIZE ≤ 2 ^ 32)
    (hz : slotEntry s a = 0) (hfl : s.freeList ≠ []) :
    ∃ s' : VM, mappages s a PGSIZE pa UVM_PDX_ATRB UVM_PTX_ATRB = .ok (s', 0) ∧
      slotEntry s' a = pa ||| UVM_PTX_ATRB ∧
      (∀ b, b % PGSIZE = 0 → b < 2 ^ 32 → b ≠ a → slotEntry s' b = slotEntry s b) ∧
      VMwf s' ∧ (∀ j, s.l1 j ≠ 0 → s'.l1 j = s.l1 j) ∧
      (∃ t, t ≤ 1 ∧ s'.freeList = s.freeList.drop t) ∧
      s'.freed = s.freed ∧ s'.mem = s.mem := by
  have ha32s : a < 2 ^ 32 := by
    unfold PGSIZE at ha32
    omega
  have hada : PG_ROUND_DOWN a = a := by
    rw [PG_ROUND_DOWN_eq a ha32s]
    unfold PGSIZE at hal
    omega
  have hlast : PG_ROUND_DOWN (a + PGSIZE - 1) = a := by
    rw [PG_ROUND_DOWN_eq _ (by unfold PGSIZE at ha32 ⊢; omega)]
    unfold PGSIZE at hal ⊢
    omega
  have hlen : 1 ≤ s.freeList.length := by
    cases hc : s.freeList with
    | nil => exact absurd hc hfl
    | cons x xs => simp
  have hunf : mappages s a PGSIZE pa UVM_PDX_ATRB UVM_PTX_ATRB =
      mapTblLoop s a a pa UVM_PDX_ATRB UVM_PTX_ATRB ((a - a) / PGSIZE + 1) := by
    unfold mappages
    rw [if_neg (by intro hcon; exact hcon rfl), if_pos (by decide)]
    rw [hada, hlast]
  have hfe : (a - a) / PGSIZE + 1 = 0 + 1 := by
    unfold PGSIZE
    omega
  have hmain := (mapTblLoop_spec UVM_PDX_ATRB UVM_PTX_ATRB (by decide) 1 s a pa 1
    hwf (by omega) (by omega) hal (by unfold PGSIZE at ha32 ⊢; omega) hlen).2
    (by
      intro k hk
      interval_cases k
      simpa using hz)
  obtain ⟨s', hrun, hslots, hframe, hwf', hl1m, hdrop, hfreed, hmem⟩ := hmain
  have hrun1 : mapTblLoop s a (a + (1 - 1) * PGSIZE) pa UVM_PDX_ATRB UVM_PTX_ATRB 1 =
      mapTblLoop s a a pa UVM_PDX_ATRB UVM_PTX_ATRB 1 := by
    have : a + (1 - 1) * PGSIZE = a := by omega
    rw [this]
  refine ⟨s', ?_, ?_, ?_, hwf', hl1m, hdrop, hfreed, hmem⟩
  · rw [hunf, hfe, ← hrun1]
    exact hrun
  · have := hslots 0 (by omega)
    simpa using this
  · intro b hb1 hb2 hb3
    refine hframe b hb1 hb2 ?_
    intro k hk
    interval_cases k
    simpa using hb3

/-- Well-formedness only reads the directory and the free list. -/
theorem vmwf_of_eq (s s' : VM) (h : VMwf s) (hl1 : s'.l1 = s.l1)
    (hfl : s'.freeList = s.freeList) : VMwf s' := by
  obtain ⟨h1, h2, h3⟩ := h
  refine ⟨?_, ?_, ?_⟩
  · rw [hl1]
    exact h1
  · rw [hfl]
    exact h2
  · intro g hg
    rw [hfl] at hg
    obtain ⟨g1, g2, g3, g4⟩ := h3 g hg
    refine ⟨g1, g2, g3, ?_⟩
    intro j hj
    rw [hl1] at hj ⊢
    exact g4 j hj

/-- The `allocuvm` page loop, started at the aligned address `a` with
every slot of `[cut, newsz)` clear and `[PG_ROUND_UP oldszArg, cut)`
already mapped to fresh zeroed pages (`cut = a`, or one gap page
behind `a` with the allocator exhausted): the loop always terminates
normally and either returns `newsz` — with every range page mapped,
except possibly pages left clear after the allocator emptied (the
ignored `mappages` failure) — or rolls back through `deallocuvm` and
returns 0 with the whole range clear.  With two free pages per
remaining page the success is total. -/
theorem allocLoop_spec :
    ∀ (fuel : Nat) (s : VM) (a newsz oldszArg cut : Nat),
      VMwf s →
      a % PGSIZE = 0 → cut % PGSIZE = 0 →
      PG_ROUND_UP oldszArg ≤ cut → cut ≤ a →
      oldszArg ≤ newsz → newsz ≤ 2 ^ 31 →
      0 < fuel → newsz ≤ a + (fuel - 1) * PGSIZE →
      (cut = a ∨ (a = cut + PGSIZE ∧ s.freeList = [])) →
      (∀ b, PG_ROUND_UP oldszArg ≤ b → b < cut → b % PGSIZE = 0 → MappedZ s b) →
      (∀ b, cut ≤ b → b < newsz → b % PGSIZE = 0 → slotEntry s b = 0) →
      ∃ s' : VM,
        ((allocLoop s a newsz oldszArg fuel = .ok (s', newsz) ∧ VMwf s' ∧
          (∀ b, PG_ROUND_UP oldszArg ≤ b → b < cut → b % PGSIZE = 0 → MappedZ s' b) ∧
          (∀ b, cut ≤ b → b < newsz → b % PGSIZE = 0 →
            MappedZ s' b ∨ (slotEntry s' b = 0 ∧ s'.freeList = [])) ∧
          (cut = a → 2 * ((newsz - a + PGSIZE - 1) / PGSIZE) ≤ s.freeList.length →
            ∀ b, cut ≤ b → b < newsz → b % PGSIZE = 0 → MappedZ s' b)) ∨
        (allocLoop s a newsz oldszArg fuel = .ok (s', 0) ∧
          (∀ b, PG_ROUND_UP oldszArg ≤ b → b < newsz → b % PGSIZE = 0 →
            slotEntry s' b = 0) ∧
          ¬ (cut = a ∧ 2 * ((newsz - a + PGSIZE - 1) / PGSIZE) ≤ s.freeList.length))) := by
  intro fuel
  induction fuel with
  | zero =>
    intro s a newsz oldszArg cut _ _ _ _ _ _ _ hf
    omega
  | succ fuel ih =>
    intro s a newsz oldszArg cut hwf hal hcal hc0 hca holds hns _ hfuel hgap hpre hzero
    by_cases hlt : a < newsz
    · have hfpos : 0 < fuel := by
        by_contra hcon
        have hf0 : fuel = 0 := by omega
        rw [hf0] at hfuel
        simp at hfuel
        omega
      have hfuel' : newsz ≤ a + fuel * PGSIZE := by
        simpa using hfuel
      cases hfree : s.freeList with
      | nil =>
        have hup_ge : oldszArg ≤ PG_ROUND_UP oldszArg := pg_round_up_ge _ (by omega)
        have hup_al : PG_ROUND_UP oldszArg % PGSIZE = 0 := pg_round_up_aligned _ (by omega)
        have hdun : deallocuvm s newsz oldszArg =
            (match deallocLoop s (PG_ROUND_UP oldszArg) newsz (newsz / PGSIZE + 2) with
             | .ok s1 => .ok (s1, oldszArg)
             | .panicked m => .panicked m
             | .nofuel => .nofuel) := by
          unfold deallocuvm
          rw [if_neg (by omega)]
        obtain ⟨s'', hdrun, hdl1, hdfl, hdmem, hdclear, hdframe⟩ :=
          deallocLoop_spec (newsz / PGSIZE + 2) s (PG_ROUND_UP oldszArg) newsz cut
            hwf.1 hup_al (by omega) (by unfold PGSIZE; omega)
            (by unfold PGSIZE; omega)
            (by
              intro b hb1 hb2 hb3
              constructor
              · intro hbc
                obtain ⟨mb, hq1, hq2, hq3, hq4, hq5, hq6⟩ := hpre b hb1 hbc hb3
                rw [hq5]
                have hkb : (0x80000000 : Nat) < mb := hq1
                have hv2e : v2p mb = mb - 0x80000000 := rfl
                have hv2al : v2p mb % 2 ^ 12 = 0 := by
                  rw [hv2e]
                  unfold PGSIZE at hq3
                  omega
                have hv232 : v2p mb < 2 ^ 32 := by
                  rw [hv2e]
                  omega
                rw [PTE_ADDR_aligned (v2p mb) UVM_PTX_ATRB hv2al hv232 (by decide)]
                rw [hv2e]
                omega
              · intro hbc
                exact hzero b hbc hb2 hb3)
        have hstep : allocLoop s a newsz oldszArg (fuel + 1) = .ok (s'', 0) := by
          rw [allocLoop_step_fail s a newsz oldszArg fuel hlt hfree, hdun, hdrun]
        refine ⟨s'', Or.inr ⟨hstep, ?_, ?_⟩⟩
        · intro b hb1 hb2 hb3
          exact hdclear b hb1 hb2 hb3
        · rintro ⟨hcut, hbud⟩
          simp only [List.length_nil] at hbud
          unfold PGSIZE at hbud
          omega
      | cons m rest =>
        have hcuta : cut = a := by
          rcases hgap with h | ⟨_, hcon⟩
          · exact h
          · rw [hfree] at hcon
            cases hcon
        obtain ⟨hinj, hnodup, hprops⟩ := hwf
        obtain ⟨hm1, hm2, hm3, hm4⟩ :=
          hprops m (by rw [hfree]; exact List.mem_cons_self m rest)
        have hmnr : m ∉ rest := by
          rw [hfree] at hnodup
          exact (List.nodup_cons.mp hnodup).1
        set s2 : VM :=
          { s with freeList := rest, mem := upd2 s.mem (v2p m) (fun _ => 0) } with hs2
        have hs2fl : s2.freeList = rest := rfl
        have hs2mem : s2.mem = upd2 s.mem (v2p m) (fun _ => 0) := rfl
        have hslot2 : ∀ b, slotEntry s2 b = slotEntry s b := fun b => rfl
        have hwf2 : VMwf s2 := by
          refine ⟨hinj, ?_, ?_⟩
          · rw [hs2fl]
            rw [hfree] at hnodup
            exact hnodup.of_cons
          · intro g hg
            have hgr : g ∈ rest := hg
            exact hprops g (by rw [hfree]; exact List.mem_cons_of_mem m hgr)
        have hvne : ∀ mb, (0x80000000 : Nat) < mb → mb ∉ s.freeList → v2p mb ≠ v2p m := by
          intro mb hkb hnm
          have e1 : v2p mb = mb - 0x80000000 := rfl
          have e2 : v2p m = m - 0x80000000 := rfl
          have hkb2 : (0x80000000 : Nat) < m := hm1
          have hmbm : mb ≠ m := by
            intro hc
            rw [hc] at hnm
            exact hnm (by rw [hfree]; exact List.mem_cons_self m rest)
          rw [e1, e2]
          omega
        have hpre2 : ∀ b, PG_ROUND_UP oldszArg ≤ b → b < cut → b % PGSIZE = 0 →
            MappedZ s2 b := by
          intro b hb1 hb2 hb3
          obtain ⟨mb, hq1, hq2, hq3, hq4, hq5, hq6⟩ := hpre b hb1 hb2 hb3
          refine ⟨mb, hq1, hq2, hq3, ?_, ?_, ?_⟩
          · rw [hs2fl]
            intro hc
            exact hq4 (by rw [hfree]; exact List.mem_cons_of_mem m hc)
          · rw [hslot2]
            exact hq5
          · rw [hs2mem, upd2_other _ _ _ _ (hvne mb hq1 hq4)]
            exact hq6
        have hzero2 : ∀ b, cut ≤ b → b < newsz → b % PGSIZE = 0 → slotEntry s2 b = 0 := by
          intro b hb1 hb2 hb3
          rw [hslot2]
          exact hzero b hb1 hb2 hb3
        have ha32 : a + PGSIZE ≤ 2 ^ 32 := by
          unfold PGSIZE
          omega
        have hz2a : slotEntry s2 a = 0 :=
          hzero2 a (by omega) hlt hal
        have hbudFalse1 : rest = [] →
            ¬ (cut = a ∧ 2 * ((newsz - a + PGSIZE - 1) / PGSIZE) ≤ (m :: rest).length) := by
          intro hrest
          rintro ⟨_, hbud⟩
          rw [hrest] at hbud
          simp only [List.length_cons, List.length_nil] at hbud
          unfold PGSIZE at hbud
          omega
        by_cases hrest : rest = []
        · by_cases habs : s2.l1 (PDX a) = 0
          · -- the ignored-failure path: the data page is consumed but not mapped
            have hfail := mappages_one_page_fail s2 a (v2p m) hal ha32
              (by rw [hs2fl, hrest]) habs
            have hstep : allocLoop s a newsz oldszArg (fuel + 1) =
                allocLoop s2 (a + PGSIZE) newsz oldszArg fuel := by
              rw [allocLoop_step_alloc s a newsz oldszArg fuel m rest hlt hfree, hfail]
            obtain ⟨s', harm⟩ := ih s2 (a + PGSIZE) newsz oldszArg cut hwf2
              (by unfold PGSIZE at hal ⊢; omega) hcal hc0 (by omega) holds hns hfpos
              (by unfold PGSIZE at hfuel' ⊢; omega)
              (Or.inr ⟨by omega, by rw [hs2fl, hrest]⟩) hpre2 hzero2
            rcases harm with ⟨hrun', hwf', hpre', hdisj', _⟩ | ⟨hrun', hclear', _⟩
            · refine ⟨s', Or.inl ⟨by rw [hstep]; exact hrun', hwf', hpre', hdisj', ?_⟩⟩
              intro hcut hbud
              exact absurd ⟨hcut, hbud⟩ (hbudFalse1 hrest)
            · refine ⟨s', Or.inr ⟨by rw [hstep]; exact hrun', hclear', hbudFalse1 hrest⟩⟩
          · -- allocator empty but the table already exists: the page is still mapped
            obtain ⟨s3, hmok, hself3, hframe3, hl13, hfl3, hfreed3, hmem3⟩ :=
              mappages_one_page_present s2 a (v2p m) hinj hal ha32 habs hz2a
            have hwf3 : VMwf s3 := vmwf_of_eq s2 s3 hwf2 hl13 hfl3
            have hstep : allocLoop s a newsz oldszArg (fuel + 1) =
                allocLoop s3 (a + PGSIZE) newsz oldszArg fuel := by
              rw [allocLoop_step_alloc s a newsz oldszArg fuel m rest hlt hfree, hmok]
            have hmz3a : MappedZ s3 a := by
              refine ⟨m, hm1, hm2, hm3, ?_, hself3, ?_⟩
              · rw [hfl3, hs2fl, hrest]
                simp
              · rw [hmem3, hs2mem]
                exact upd2_self s.mem (v2p m) (fun _ => 0)
            have hpre3 : ∀ b, PG_ROUND_UP oldszArg ≤ b → b < a + PGSIZE → b % PGSIZE = 0 →
                MappedZ s3 b := by
              intro b hb1 hb2 hb3
              by_cases hbc : b < cut
              · obtain ⟨mb, hq1, hq2, hq3, hq4, hq5, hq6⟩ := hpre2 b hb1 hbc hb3
                refine ⟨mb, hq1, hq2, hq3, ?_, ?_, ?_⟩
                · rw [hfl3]
                  exact hq4
                · rw [hframe3 b hb3 (by omega) (by omega), hq5]
                · rw [hmem3]
                  exact hq6
              · have hba : b = a := by
                  unfold PGSIZE at hal hb2 hb3
                  omega
                rw [hba]
                exact hmz3a
            have hzero3 : ∀ b, a + PGSIZE ≤ b → b < newsz → b % PGSIZE = 0 →
                slotEntry s3 b = 0 := by
              intro b hb1 hb2 hb3
              rw [hframe3 b hb3 (by omega) (by unfold PGSIZE at hb1; omega)]
              exact hzero2 b (by omega) hb2 hb3
            obtain ⟨s', harm⟩ := ih s3 (a + PGSIZE) newsz oldszArg (a + PGSIZE) hwf3
              (by unfold PGSIZE at hal ⊢; omega) (by unfold PGSIZE at hal ⊢; omega)
              (by omega) (by omega) holds hns hfpos
              (by unfold PGSIZE at hfuel' ⊢; omega)
              (Or.inl rfl) hpre3 hzero3
            rcases harm with ⟨hrun', hwf', hpre', hdisj', _⟩ | ⟨hrun', hclear', _⟩
            · refine ⟨s', Or.inl ⟨by rw [hstep]; exact hrun', hwf', ?_, ?_, ?_⟩⟩
              · intro b hb1 hb2 hb3
                exact hpre' b hb1 (by omega) hb3
              · intro b hb1 hb2 hb3
                by_cases hb4 : a + PGSIZE ≤ b
                · exact hdisj' b hb4 hb2 hb3
                · left
                  exact hpre' b (by omega) (by omega) hb3
              · intro hcut hbud
                exact absurd ⟨hcut, hbud⟩ (hbudFalse1 hrest)
            · refine ⟨s', Or.inr ⟨by rw [hstep]; exact hrun', hclear', hbudFalse1 hrest⟩⟩
        · -- at least one more free page: the general one-page mapping
          obtain ⟨s3, hmok, hself3, hframe3, hwf3, hl1m3, ⟨t, ht, hfl3⟩, hfreed3, hmem3⟩ :=
            mappages_one_page s2 a (v2p m) hwf2 hal ha32 hz2a (by rw [hs2fl]; exact hrest)
          have hstep : allocLoop s a newsz oldszArg (fuel + 1) =
              allocLoop s3 (a + PGSIZE) newsz oldszArg fuel := by
            rw [allocLoop_step_alloc s a newsz oldszArg fuel m rest hlt hfree, hmok]
          have hfl3r : s3.freeList = rest.drop t := by
            rw [hfl3, hs2fl]
          have hmz3a : MappedZ s3 a := by
            refine ⟨m, hm1, hm2, hm3, ?_, hself3, ?_⟩
            · rw [hfl3r]
              intro hc
              exact hmnr (List.drop_subset t rest hc)
            · rw [hmem3, hs2mem]
              exact upd2_self s.mem (v2p m) (fun _ => 0)
          have hpre3 : ∀ b, PG_ROUND_UP oldszArg ≤ b → b < a + PGSIZE → b % PGSIZE = 0 →
              MappedZ s3 b := by
            intro b hb1 hb2 hb3
            by_cases hbc : b < cut
            · obtain ⟨mb, hq1, hq2, hq3, hq4, hq5, hq6⟩ := hpre2 b hb1 hbc hb3
              refine ⟨mb, hq1, hq2, hq3, ?_, ?_, ?_⟩
              · rw [hfl3r]
                intro hc
                exact hq4 (by rw [hs2fl]; exact List.drop_subset t rest hc)
              · rw [hframe3 b hb3 (by omega) (by omega), hq5]
              · rw [hmem3]
                exact hq6
            · have hba : b = a := by
                unfold PGSIZE at hal hb2 hb3
                omega
              rw [hba]
              exact hmz3a
          have hzero3 : ∀ b, a + PGSIZE ≤ b → b < newsz → b % PGSIZE = 0 →
              slotEntry s3 b = 0 := by
            intro b hb1 hb2 hb3
            rw [hframe3 b hb3 (by omega) (by unfold PGSIZE at hb1; omega)]
            exact hzero2 b (by omega) hb2 hb3
          have hlen3 : rest.length - t ≤ s3.freeList.length := by
            rw [hfl3r]
            simp
          obtain ⟨s', harm⟩ := ih s3 (a + PGSIZE) newsz oldszArg (a + PGSIZE) hwf3
            (by unfold PGSIZE at hal ⊢; omega) (by unfold PGSIZE at hal ⊢; omega)
            (by omega) (by omega) holds hns hfpos
            (by unfold PGSIZE at hfuel' ⊢; omega)
            (Or.inl rfl) hpre3 hzero3
          rcases harm with ⟨hrun', hwf', hpre', hdisj', hbud'⟩ | ⟨hrun', hclear', hnbud'⟩
          · refine ⟨s', Or.inl ⟨by rw [hstep]; exact hrun', hwf', ?_, ?_, ?_⟩⟩
            · intro b hb1 hb2 hb3
              exact hpre' b hb1 (by omega) hb3
            · intro b hb1 hb2 hb3
              by_cases hb4 : a + PGSIZE ≤ b
              · exact hdisj' b hb4 hb2 hb3
              · left
                exact hpre' b (by omega) (by omega) hb3
            · intro hcut hbud
              simp only [List.length_cons] at hbud
              have hbud2 : 2 * ((newsz - (a + PGSIZE) + PGSIZE - 1) / PGSIZE) ≤
                  s3.freeList.length := by
                rw [hfl3r]
                simp only [List.length_drop]
                unfold PGSIZE at hbud ⊢
                omega
              intro b hb1 hb2 hb3
              by_cases hb4 : a + PGSIZE ≤ b
              · exact hbud' rfl hbud2 b hb4 hb2 hb3
              · exact hpre' b (by omega) (by omega) hb3
          · refine ⟨s', Or.inr ⟨by rw [hstep]; exact hrun', hclear', ?_⟩⟩
            rintro ⟨hcut, hbud⟩
            apply hnbud'
            refine ⟨rfl, ?_⟩
            simp only [List.length_cons] at hbud
            rw [hfl3r]
            simp only [List.length_drop]
            unfold PGSIZE at hbud ⊢
            omega
    · have hstep : allocLoop s a newsz oldszArg (fuel + 1) = .ok (s, newsz) :=
        allocLoop_step_done s a newsz oldszArg fuel hlt
      refine ⟨s, Or.inl ⟨hstep, hwf, hpre, ?_, ?_⟩⟩
      · intro b hb1 hb2 hb3
        rcases hgap with hcut | ⟨hga, hfl⟩
        · exact absurd hb2 (by omega)
        · right
          exact ⟨hzero b hb1 hb2 hb3, hfl⟩
      · intro hcut _ b hb1 hb2 _
        exact absurd hb2 (by omega)

/-- C4 (amended) — `allocuvm(pgdir, oldsz, newsz)` on a well-formed
directory whose target slots are clear: returns 0 untouched when
`newsz ≥ USERBOUND`; returns `oldsz` untouched when `newsz ≤ oldsz`
(and `newsz < USERBOUND`); on growth with at least two free pages per
new page, every page of `[PG_ROUND_UP oldsz, newsz)` is allocated,
zeroed and mapped user-RW and `newsz` is returned; and in general the
loop always completes, returning either `newsz` — each range page
mapped, or left clear with the allocator exhausted (the ignored
`mappages` table-allocation failure of the counterexample) — or 0
after the `deallocuvm(pgdir, newsz, oldsz)` rollback, which leaves
every range slot clear.  The original claim's "any allocation failure
rolls back" holds only for the data-page `alloc_page` call. -/
theorem C4_allocuvm (s : VM) (oldsz newsz : Nat) (hwf : VMwf s)
    (hzero : ∀ b, PG_ROUND_UP oldsz ≤ b → b < newsz → b % PGSIZE = 0 →
      slotEntry s b = 0) :
    (USERBOUND ≤ newsz → allocuvm s oldsz newsz = .ok (s, 0)) ∧
    (newsz < USERBOUND → newsz ≤ oldsz → allocuvm s oldsz newsz = .ok (s, oldsz)) ∧
    (oldsz ≤ newsz → newsz < USERBOUND →
      2 * ((newsz - PG_ROUND_UP oldsz + PGSIZE - 1) / PGSIZE) ≤ s.freeList.length →
      ∃ s', allocuvm s oldsz newsz = .ok (s', newsz) ∧ VMwf s' ∧
        ∀ b, PG_ROUND_UP oldsz ≤ b → b < newsz → b % PGSIZE = 0 → MappedZ s' b) ∧
    (oldsz ≤ newsz → newsz < USERBOUND →
      ∃ s' r, allocuvm s oldsz newsz = .ok (s', r) ∧
        ((r = newsz ∧ VMwf s' ∧
          (∀ b, PG_ROUND_UP oldsz ≤ b → b < newsz → b % PGSIZE = 0 →
            MappedZ s' b ∨ (slotEntry s' b = 0 ∧ s'.freeList = []))) ∨
         (r = 0 ∧ ∀ b, PG_ROUND_UP oldsz ≤ b → b < newsz → b % PGSIZE = 0 →
           slotEntry s' b = 0))) := by
  have hub : (USERBOUND : Nat) = 2 ^ 31 := by decide
  refine ⟨?_, ?_, ?_, ?_⟩
  · intro h
    unfold allocuvm
    rw [if_pos h]
  · intro h1 h2
    unfold allocuvm
    rw [if_neg (by omega)]
    by_cases hlt : newsz < oldsz
    · rw [if_pos hlt]
    · have heq : newsz = oldsz := by omega
      rw [if_neg hlt]
      have hge : oldsz ≤ PG_ROUND_UP oldsz := pg_round_up_ge oldsz (by omega)
      have hf2 : (newsz - PG_ROUND_UP oldsz) / PGSIZE + 2 =
          ((newsz - PG_ROUND_UP oldsz) / PGSIZE + 1) + 1 := by omega
      rw [hf2, allocLoop_step_done s (PG_ROUND_UP oldsz) newsz oldsz
        ((newsz - PG_ROUND_UP oldsz) / PGSIZE + 1) (by omega), heq]
  · intro h1 h2 hbud
    unfold allocuvm
    rw [if_neg (by omega), if_neg (by omega)]
    have hge : oldsz ≤ PG_ROUND_UP oldsz := pg_round_up_ge oldsz (by omega)
    have hupal : PG_ROUND_UP oldsz % PGSIZE = 0 := pg_round_up_aligned oldsz (by omega)
    have hf2 : (newsz - PG_ROUND_UP oldsz) / PGSIZE + 2 =
        ((newsz - PG_ROUND_UP oldsz) / PGSIZE + 1) + 1 := by omega
    rw [hf2]
    obtain ⟨s', harm⟩ := allocLoop_spec (((newsz - PG_ROUND_UP oldsz) / PGSIZE + 1) + 1)
      s (PG_ROUND_UP oldsz) newsz oldsz (PG_ROUND_UP oldsz) hwf hupal hupal le_rfl le_rfl
      h1 (by omega) (by unfold PGSIZE; omega) (by unfold PGSIZE; omega) (Or.inl rfl)
      (fun b hb1 hb2 _ => absurd hb2 (by omega)) hzero
    rcases harm with ⟨hrun, hwf', _, _, hbud'⟩ | ⟨_, _, hnbud⟩
    · exact ⟨s', hrun, hwf', hbud' rfl hbud⟩
    · exact absurd ⟨rfl, hbud⟩ hnbud
  · intro h1 h2
    unfold allocuvm
    rw [if_neg (by omega), if_neg (by omega)]
    have hge : oldsz ≤ PG_ROUND_UP oldsz := pg_round_up_ge oldsz (by omega)
    have hupal : PG_ROUND_UP oldsz % PGSIZE = 0 := pg_round_up_aligned oldsz (by omega)
    have hf2 : (newsz - PG_ROUND_UP oldsz) / PGSIZE + 2 =
        ((newsz - PG_ROUND_UP oldsz) / PGSIZE + 1) + 1 := by omega
    rw [hf2]
    obtain ⟨s', harm⟩ := allocLoop_spec (((newsz - PG_ROUND_UP oldsz) / PGSIZE + 1) + 1)
      s (PG_ROUND_UP oldsz) newsz oldsz (PG_ROUND_UP oldsz) hwf hupal hupal le_rfl le_rfl
      h1 (by omega) (by unfold PGSIZE; omega) (by unfold PGSIZE; omega) (Or.inl rfl)
      (fun b hb1 hb2 _ => absurd hb2 (by omega)) hzero
    rcases harm with ⟨hrun, hwf', _, hdisj, _⟩ | ⟨hrun, hclear, _⟩
    · exact ⟨s', newsz, hrun, Or.inl ⟨rfl, hwf', hdisj⟩⟩
    · exact ⟨s', 0, hrun, Or.inr ⟨rfl, hclear⟩⟩

/-- Witness for C4: growing a concrete empty directory with two free
pages from 0 to one page maps page 0 to a fresh zeroed user page. -/
theorem C4_allocuvm_witness :
    ∃ s' : VM, allocuvm vmTwoFree 0 0x1000 = Res.ok (s', 0x1000) ∧
      VMwf s' ∧ MappedZ s' 0 := by
  have hwf : VMwf vmTwoFree := by
    refine ⟨fun j j' hj _ _ => absurd rfl hj, by decide, ?_⟩
    intro f hf
    have hor : f = KERNBASE + 0x5000 ∨ f = KERNBASE + 0x6000 := by
      simpa [vmTwoFree] using hf
    rcases hor with h | h <;> subst h <;>
      exact ⟨by decide, by decide, by decide, fun j hj => absurd rfl hj⟩
  have h := C4_allocuvm vmTwoFree 0 0x1000 hwf (fun b _ _ _ => by
    unfold slotEntry
    rw [if_pos (show vmTwoFree.l1 (PDX b) = 0 from rfl)])
  obtain ⟨s', hok, hwf', hmap⟩ := h.2.2.1 (by decide) (by decide) (by decide)
  exact ⟨s', hok, hwf', hmap 0 (by decide) (by decide) (by decide)⟩

end XV6
